import Mathlib

/-!
# Circle-diagram core: shallow embedding and verification

Shallow embedding of the core of the Circle-diagram server
(`src/Circle_diagram/main.go`, canonical variant around lines 1061-1853):
the cell classifier `getCellType`, the validators `validateSpeeds` /
`validateConfig`, the weighted selector and `generateDistribution`, the
placement engine (`canPlaceCircle`, `generateNearbyPosition`, `Generate`)
and the diffusion step `moveNumbers`.

Modelling conventions:

* Go `int` is modelled as `Int`; Go `float64` values (probabilities, speeds,
  `rand.Float64()` draws) are modelled as `ℚ`.  The float operations used by
  the source are sign-preserving multiplications, additions and comparisons
  of small quantities, for which the rational model agrees with IEEE
  evaluation except on ulp-level boundary ties that no claim depends on.
* The process-wide random generator is modelled as an `Oracle`: an arbitrary
  stream of draw results indexed by a call counter that is threaded through
  every function exactly in the source's call order.  Universally
  quantified theorems therefore cover every behaviour the seeded generator
  can produce.  `math.Cos`/`math.Sin` of the drawn angle are modelled by the
  oracle directly supplying the direction pair of that draw.
* Because `Rat.mul`/`Rat.add` are `@[irreducible]`, arithmetic on ℚ inside
  executable definitions is written on numerators/denominators with integer
  operations; bridge lemmas (`moveGate_iff`, `selCount_eq_floor`) prove the
  integer forms equal to the ℚ arithmetic of the source expression.
* `rand.Intn n` (which panics for `n ≤ 0`) is modelled as `oracle value % n`;
  for `n = 0` this yields an arbitrary value where Go would panic, which only
  widens the set of behaviours a universal theorem covers.  Likewise a
  negative token index, which would panic Go's `speeds[speedIdx]` lookup, is
  excluded by hypothesis where it matters.
-/

namespace CircleDiagram

/-- The pseudo-random source (`math/rand` global generator), as an oracle.
`flt k` is the value returned when the `k`-th rand call is `rand.Float64()`
(real runs have `0 ≤ flt k < 1`, assumed as a hypothesis where needed);
`intn k n` feeds the `k`-th call when it is `rand.Intn n` (used mod `n`);
`dir k` is the pair `(cos θ, sin θ)` for the angle `θ` drawn by call `k`. -/
structure Oracle where
  flt : Nat → ℚ
  intn : Nat → Nat → Nat
  dir : Nat → ℚ × ℚ

/-- One `rand.Float64()` call at counter `c`. -/
def randFloat (o : Oracle) (c : Nat) : ℚ × Nat := (o.flt c, c + 1)

/-- One `rand.Intn n` call at counter `c`; the oracle value is reduced
mod `n` so that the result is in `[0, n)` exactly as `rand.Intn` returns. -/
def randIntn (o : Oracle) (c : Nat) (n : Nat) : Nat × Nat := (o.intn c n % n, c + 1)

/-- `type Circle struct { X, Y, Radius int; Type string }`. -/
structure Circle where
  x : Int
  y : Int
  radius : Int
  ctype : String := ""
deriving DecidableEq

/-- `type Config struct` (width/height/spawn_count/bedroom_count/
spawn_radius/bedroom_radius/max_gap). -/
structure Config where
  width : Int
  height : Int
  spawns : Int
  bedrooms : Int
  spawnR : Int
  bedroomR : Int
  maxGap : Int
deriving DecidableEq

/-- `type Cell struct { X, Y int; Vals []int }`. -/
structure Cell where
  x : Int
  y : Int
  vals : List Int
deriving DecidableEq

/-- `getCellType(x, y int, circles []Circle) int`: first circle whose exact
center is `(x,y)` gives 2 (Center); else first circle with
`dx*dx+dy*dy <= r*r` gives 1 (Interior); else 0 (Empty).  The loop
short-circuits on the first circle that matches either test. -/
def getCellType (x y : Int) : List Circle → Int
  | [] => 0
  | cir :: rest =>
    let dx := x - cir.x
    let dy := y - cir.y
    if dx = 0 ∧ dy = 0 then 2
    else if dx * dx + dy * dy ≤ cir.radius * cir.radius then 1
    else getCellType x y rest

/-- A circle matches a point when the point is its exact center or inside
its radius — the two tests of the `getCellType` loop body. -/
def circleMatches (x y : Int) (c : Circle) : Prop :=
  (x - c.x = 0 ∧ y - c.y = 0) ∨
    (x - c.x) * (x - c.x) + (y - c.y) * (y - c.y) ≤ c.radius * c.radius

instance (x y : Int) (c : Circle) : Decidable (circleMatches x y c) := by
  unfold circleMatches; infer_instance

/-! ## Validators (`validateSpeeds`, `validateConfig`)

Error strings paraphrase the Russian messages of the source; only
`none` (Go `nil`) versus `some` (Go non-nil error) matters to the claims. -/

/-- The per-entry scan of `validateSpeeds`: returns the first entry outside
`[0, 100]` as an error. -/
def speedsRangeErr : List ℚ → Option String
  | [] => none
  | s :: rest =>
    if s < 0 ∨ 100 < s then some "speed must be between 0 and 100"
    else speedsRangeErr rest

/-- `validateSpeeds(speeds []float64) error`: empty vector is an error, then
every entry must lie in `[0, 100]`. -/
def validateSpeeds (speeds : List ℚ) : Option String :=
  if speeds.length = 0 then some "speeds array must not be empty"
  else speedsRangeErr speeds

/-- `validateConfig(cfg Config) error`: positive dimensions, at most
100×100, non-negative spawn/bedroom counts. -/
def validateConfig (cfg : Config) : Option String :=
  if cfg.width ≤ 0 ∨ cfg.height ≤ 0 then some "map dimensions must be positive"
  else if 100 < cfg.width ∨ 100 < cfg.height then some "map dimensions too large, max 100x100"
  else if cfg.spawns < 0 ∨ cfg.bedrooms < 0 then some "spawn and bedroom counts must be non-negative"
  else none

/-! ## Weighted selector and `generateDistribution` -/

/-- `int(p * 50)` of `createProbabilitySelector`, as the number of copies of
a bucket index added to the selector.  Written as a floor division of
integers (`(p.num * 50) fdiv p.den`); Go's `int()` truncates toward zero,
which agrees with the floor for `p * 50 ≥ 0`, and for `p * 50 < 0` both the
truncation and `toNat` produce zero loop iterations.  See
`selCount_eq_floor`. -/
def selCount (p : ℚ) : Nat := ((p.num * 50).fdiv (p.den : Int)).toNat

/-- The index-threaded loop of `createProbabilitySelector`: bucket `idx`
appears `selCount p` times, in index order. -/
def buildSelector : Nat → List ℚ → List Nat
  | _, [] => []
  | idx, p :: rest => List.replicate (selCount p) idx ++ buildSelector (idx + 1) rest

/-- `createProbabilitySelector(probabilities []float64) []int`. -/
def createProbabilitySelector (probabilities : List ℚ) : List Nat :=
  buildSelector 0 probabilities

/-- Drawing one token: `selector[rand.Intn(len(selector))]`. -/
def pickTok (o : Oracle) (selector : List Nat) (c : Nat) : Nat × Nat :=
  (selector.getD (randIntn o c selector.length).1 0, (randIntn o c selector.length).2)

/-- Drawing `k` tokens in sequence (the `for i := 0; i < count; i++` fill
loop of the Empty-cell case). -/
def drawToks (o : Oracle) (selector : List Nat) : Nat → Nat → List Int × Nat
  | 0, c => ([], c)
  | k + 1, c =>
    let rest := drawToks o selector k (pickTok o selector c).2
    (((pickTok o selector c).1 : Int) :: rest.1, rest.2)

/-- The grid traversal order of the source: `for y … { for x … }`
(row-major, y outer). -/
def gridCoords (cfg : Config) : List (Int × Int) :=
  (List.range cfg.height.toNat).flatMap fun (y : Nat) =>
    (List.range cfg.width.toNat).map fun (x : Nat) => ((x : Int), (y : Int))

/-- The per-coordinate switch of `generateDistribution`: Center (2) emits no
cell; Interior (1) draws one token; Empty (0) draws `1 + rand.Intn(2)`
tokens.  (With a non-empty selector every emitted `vals` is non-empty, so
the source's `len(vals) > 0` guard before appending is always taken.) -/
def distCells (o : Oracle) (circles : List Circle) (selector : List Nat) :
    List (Int × Int) → Nat → List Cell
  | [], _ => []
  | xy :: rest, c =>
    let t := getCellType xy.1 xy.2 circles
    if t = 2 then distCells o circles selector rest c
    else if t = 1 then
      ⟨xy.1, xy.2, [((pickTok o selector c).1 : Int)]⟩ ::
        distCells o circles selector rest (pickTok o selector c).2
    else
      let r := (randIntn o c 2).1
      let dt := drawToks o selector (1 + r) (randIntn o c 2).2
      ⟨xy.1, xy.2, dt.1⟩ :: distCells o circles selector rest dt.2

/-- `generateDistribution(cfg Config, circles []Circle, probabilities
[]float64) []Cell`: build the selector, bail out with no cells when it is
empty, else fill the grid row-major. -/
def generateDistribution (o : Oracle) (cfg : Config) (circles : List Circle)
    (probabilities : List ℚ) : List Cell :=
  let selector := createProbabilitySelector probabilities
  if selector.isEmpty then []
  else distCells o circles selector (gridCoords cfg) 0

/-! ## Placement engine -/

/-- The radial distance sampled by `generateNearbyPosition`:
`minDistance + rand.Float64()*(maxDistance-minDistance)` where
`minDistance = baseRadius + r` and `maxDistance - minDistance = maxGap`. -/
def sampledDistance (baseR r maxGap : Int) (q : ℚ) : ℚ :=
  ((baseR + r : Int) : ℚ) + q * ((maxGap : Int) : ℚ)

/-- The integer candidate of one `generateNearbyPosition` attempt:
`x := int(float64(baseX) + d*cos(angle))`, `y := int(float64(baseY) +
d*sin(angle))` with `d = sampledDistance`, `cos/sin` given as rationals.
The fractions are put over the common denominator `q.den * cos.den`
(`dn / q.den = d`), and `Int.tdiv` is Go's `int()` truncation toward zero
for the positive denominators involved. -/
def nearPosCandidate (baseX baseY baseR r maxGap : Int) (q cosA sinA : ℚ) : Int × Int :=
  let dn : Int := (baseR + r) * (q.den : Int) + q.num * maxGap
  let x := Int.tdiv (baseX * (q.den : Int) * (cosA.den : Int) + dn * cosA.num)
    ((q.den : Int) * (cosA.den : Int))
  let y := Int.tdiv (baseY * (q.den : Int) * (sinA.den : Int) + dn * sinA.num)
    ((q.den : Int) * (sinA.den : Int))
  (x, y)

/-- `generateNearbyPosition(baseCircle Circle, radius int) (int, int)`:
up to 30 attempts sampling an angle and a radial distance; accept the
truncated candidate if it lies in the inset bounds `[r, dim-r)`; after 30
failures fall back to a uniform position in the inset bounds. -/
def nearPos (o : Oracle) (cfg : Config) (base : Circle) (r : Int) :
    Nat → Nat → (Int × Int) × Nat
  | 0, c =>
    let xr := (randIntn o c (cfg.width - 2 * r).toNat).1
    let c1 := (randIntn o c (cfg.width - 2 * r).toNat).2
    let yr := (randIntn o c1 (cfg.height - 2 * r).toNat).1
    let c2 := (randIntn o c1 (cfg.height - 2 * r).toNat).2
    ((r + (xr : Int), r + (yr : Int)), c2)
  | fuel + 1, c =>
    let cs := o.dir c
    let q := (randFloat o (c + 1)).1
    let c2 := (randFloat o (c + 1)).2
    let xy := nearPosCandidate base.x base.y base.radius r cfg.maxGap q cs.1 cs.2
    if r ≤ xy.1 ∧ xy.1 < cfg.width - r ∧ r ≤ xy.2 ∧ xy.2 < cfg.height - r then (xy, c2)
    else nearPos o cfg base r fuel c2

/-- `getAllCircles()`: spawns (tagged "spawn") then bedrooms (tagged
"bedroom"), in insertion order. -/
def getAll (spawns bedrooms : List Circle) : List Circle :=
  spawns.map (fun c => { c with ctype := "spawn" }) ++
    bedrooms.map (fun c => { c with ctype := "bedroom" })

/-- The overlap test of `canPlaceCircle`:
`math.Sqrt(dx*dx+dy*dy) < float64(r1+r2)`.  For `s := r1+r2 ≤ 0` the float
comparison is false since the square root is non-negative; for `s > 0`,
with integer inputs small enough to be exact in float64 and a correctly
rounded square root, it is equivalent to `dx²+dy² < s²`. -/
def overlapsLt (a b : Circle) : Bool :=
  let s := a.radius + b.radius
  let dx := a.x - b.x
  let dy := a.y - b.y
  decide (0 < s ∧ dx * dx + dy * dy < s * s)

/-- `canPlaceCircle(newCircle Circle) bool`: inside the grid
(`x-r ≥ 0`, `x+r < width`, same for y) and overlapping no existing circle. -/
def canPlaceCircle (cfg : Config) (existing : List Circle) (c : Circle) : Bool :=
  if c.x - c.radius < 0 ∨ cfg.width ≤ c.x + c.radius ∨
      c.y - c.radius < 0 ∨ cfg.height ≤ c.y + c.radius then false
  else existing.all fun ex => ! overlapsLt c ex

/-- One attempt's candidate position: with at least one existing circle,
pick a random base and call `generateNearbyPosition`; with none, sample a
uniform position in the inset bounds `[radius, dim - radius)`. -/
def tryCandidate (o : Oracle) (cfg : Config) (radius : Int)
    (existing : List Circle) (c : Nat) : (Int × Int) × Nat :=
  if 0 < existing.length then
    let bi := (randIntn o c existing.length).1
    let c' := (randIntn o c existing.length).2
    nearPos o cfg (existing.getD bi (Circle.mk 0 0 0 "")) radius 30 c'
  else
    let xr := (randIntn o c (cfg.width - 2 * radius).toNat).1
    let c' := (randIntn o c (cfg.width - 2 * radius).toNat).2
    let yr := (randIntn o c' (cfg.height - 2 * radius).toNat).1
    let c'' := (randIntn o c' (cfg.height - 2 * radius).toNat).2
    ((radius + (xr : Int), radius + (yr : Int)), c'')

/-- One slot's attempt loop (`for attempts := 0; attempts < 3000;
attempts++`): sample a candidate and accept the first one passing
`canPlaceCircle`. -/
def tryPlace (o : Oracle) (cfg : Config) (radius : Int) (spawns bedrooms : List Circle) :
    Nat → Nat → Option (Circle × Nat)
  | 0, _ => none
  | fuel + 1, c =>
    let xyc := tryCandidate o cfg radius (getAll spawns bedrooms) c
    let newCircle : Circle := ⟨xyc.1.1, xyc.1.2, radius, ""⟩
    if canPlaceCircle cfg (getAll spawns bedrooms) newCircle then some (newCircle, xyc.2)
    else tryPlace o cfg radius spawns bedrooms fuel xyc.2

/-- The remaining-spawn-slots loop of `Generate` (bedrooms are still empty
in this phase).  A failed slot aborts the whole generation. -/
def placeSpawns (o : Oracle) (cfg : Config) :
    Nat → List Circle → Nat → Except String (List Circle × Nat)
  | 0, spawns, c => .ok (spawns, c)
  | k + 1, spawns, c =>
    match tryPlace o cfg cfg.spawnR spawns [] 3000 c with
    | some pr => placeSpawns o cfg k (spawns ++ [pr.1]) pr.2
    | none => .error "cannot place spawn"

/-- The bedroom-slots loop of `Generate` (spawns fixed, bedrooms grow). -/
def placeBedrooms (o : Oracle) (cfg : Config) (spawns : List Circle) :
    Nat → List Circle → Nat → Except String (List Circle × Nat)
  | 0, bedrooms, c => .ok (bedrooms, c)
  | k + 1, bedrooms, c =>
    match tryPlace o cfg cfg.bedroomR spawns bedrooms 3000 c with
    | some pr => placeBedrooms o cfg spawns k (bedrooms ++ [pr.1]) pr.2
    | none => .error "cannot place bedroom"

/-- The center-seeding step of `Generate`: with `spawnCount > 0`, place one
spawn at the grid center `(width/2, height/2)` if it fits (skipped, not
retried, otherwise).  `Int.tdiv` is Go's truncating integer division. -/
def initialSpawns (cfg : Config) : List Circle :=
  if 0 < cfg.spawns then
    let center : Circle := ⟨Int.tdiv cfg.width 2, Int.tdiv cfg.height 2, cfg.spawnR, ""⟩
    if canPlaceCircle cfg (getAll [] []) center then [center] else []
  else []

/-- `(g *MapGenerator) Generate() error` followed by `getAllCircles()`:
seed the center spawn, fill the remaining spawn slots, then the bedroom
slots; return the tagged circle list. -/
def Generate (o : Oracle) (cfg : Config) : Except String (List Circle) := do
  let sp ← placeSpawns o cfg (cfg.spawns.toNat - (initialSpawns cfg).length)
    (initialSpawns cfg) 0
  let bd ← placeBedrooms o cfg sp.1 cfg.bedrooms.toNat [] sp.2
  return getAll sp.1 bd.1

/-- `createMapHandler`: validate the configuration, and only when it
passes run the placement engine. -/
def createMap (o : Oracle) (cfg : Config) : Except String (List Circle) :=
  match validateConfig cfg with
  | some e => .error e
  | none => Generate o cfg

/-! ## Diffusion simulator (`moveNumbers`) -/

/-- The speed lookup: `speedIdx := val; if speedIdx >= len(speeds)
{ speedIdx = 0 }; speed := speeds[speedIdx]`.  A negative `val` would panic
Go's slice indexing; here `toNat` aliases it to index 0, and theorems about
arbitrary cell maps restrict token values to be non-negative. -/
def speedOf (speeds : List ℚ) (val : Int) : ℚ :=
  let speedIdx := if (speeds.length : Int) ≤ val then 0 else val
  speeds.getD speedIdx.toNat 0

/-- The movement gate `rand.Float64()*100 < speed`, cross-multiplied into
integer arithmetic on the rationals' numerators and denominators (see
`moveGate_iff`). -/
def moveGate (q s : ℚ) : Bool :=
  decide (q.num * 100 * (s.den : Int) < s.num * (q.den : Int))

/-- The Moore-neighborhood direction list, in source order. -/
def directions : List (Int × Int) :=
  [(-1, -1), (-1, 0), (-1, 1), (0, -1), (0, 1), (1, -1), (1, 0), (1, 1)]

/-- `getNeighbors(x, y int, cfg Config)`: the in-bounds Moore neighbours. -/
def getNeighbors (x y : Int) (cfg : Config) : List (Int × Int) :=
  directions.filterMap fun d =>
    if 0 ≤ x + d.1 ∧ x + d.1 < cfg.width ∧ 0 ≤ y + d.2 ∧ y + d.2 < cfg.height then
      some (x + d.1, y + d.2)
    else none

/-- Swap two positions of a list (both indices are in range whenever the
shuffle below calls this). -/
def listSwap (l : List (Int × Int)) (i j : Nat) : List (Int × Int) :=
  match l[i]?, l[j]? with
  | some a, some b => (l.set i b).set j a
  | _, _ => l

/-- The Fisher–Yates shuffle of the neighbour list:
`for i := len-1; i > 0; i-- { j := rand.Intn(i+1); swap(i, j) }`;
the first argument is the current loop index `i`. -/
def fyShuffle (o : Oracle) : Nat → List (Int × Int) → Nat → List (Int × Int) × Nat
  | 0, l, c => (l, c)
  | i + 1, l, c =>
    fyShuffle o i (listSwap l (i + 1) (randIntn o c (i + 2)).1) (randIntn o c (i + 2)).2

/-- The per-neighbour capacity switch of `moveNumbers`: Empty (0) accepts
fewer than 2 already-committed tokens, Interior (1) fewer than 1, Center
(2) never. -/
def canMoveTo (circles : List Circle) (st : (Int × Int) → List Int) (p : Int × Int) : Bool :=
  let neighborType := getCellType p.1 p.2 circles
  if neighborType = 0 then decide ((st p).length < 2)
  else if neighborType = 1 then decide ((st p).length < 1)
  else false

/-- Scan the shuffled neighbours and commit to the first legal one. -/
def findDest (circles : List Circle) (st : (Int × Int) → List Int) :
    List (Int × Int) → Option (Int × Int)
  | [] => none
  | p :: rest => if canMoveTo circles st p then some p else findDest circles st rest

/-- `newState[key] = append(newState[key], val)`: the next-epoch map under
construction is a total function from coordinates to token lists (a missing
Go map key reads as `nil`, i.e. `[]`). -/
def commit (st : (Int × Int) → List Int) (p : Int × Int) (val : Int) :
    (Int × Int) → List Int :=
  fun k => if k = p then st k ++ [val] else st k

/-- Processing one token of one cell: draw the gate; on movement, shuffle
the neighbours and commit to the first legal one, else (and on a failed
gate) the token stays in its own cell. -/
def processToken (o : Oracle) (cfg : Config) (circles : List Circle) (speeds : List ℚ)
    (pos : Int × Int) (acc : ((Int × Int) → List Int) × Nat) (val : Int) :
    ((Int × Int) → List Int) × Nat :=
  let st := acc.1
  let q := (randFloat o acc.2).1
  let c1 := (randFloat o acc.2).2
  if moveGate q (speedOf speeds val) then
    let neighbors := getNeighbors pos.1 pos.2 cfg
    let sh := fyShuffle o (neighbors.length - 1) neighbors c1
    match findDest circles st sh.1 with
    | some dest => (commit st dest val, sh.2)
    | none => (commit st pos val, sh.2)
  else (commit st pos val, c1)

/-- The final extraction loop of `moveNumbers`: walk the grid row-major and
keep the non-empty cells. -/
def extractCells (cfg : Config) (final : (Int × Int) → List Int) : List Cell :=
  (gridCoords cfg).filterMap fun xy =>
    if (final xy).isEmpty then none else some ⟨xy.1, xy.2, final xy⟩

/-- `moveNumbers(cfg Config, circles []Circle, cells []Cell, speeds
[]float64) []Cell`: identity on the input slice when `speeds` is empty;
otherwise process every token of every cell in order against the next-epoch
map under construction and extract the non-empty grid cells.  (The source
also builds a `state` map of the current positions that it never reads
again; it is omitted.) -/
def moveNumbers (o : Oracle) (cfg : Config) (circles : List Circle) (cells : List Cell)
    (speeds : List ℚ) : List Cell :=
  if speeds.length = 0 then cells
  else
    extractCells cfg
      ((cells.foldl (fun acc cell =>
          cell.vals.foldl (processToken o cfg circles speeds (cell.x, cell.y)) acc)
        ((fun _ => []), 0)).1)

/-! ## Derived quantities used by the statements -/

/-- All tokens of a cell list as `(coordinate, value)` pairs, in processing
order. -/
def tokensOf (cells : List Cell) : List ((Int × Int) × Int) :=
  cells.flatMap fun cell => cell.vals.map fun v => ((cell.x, cell.y), v)

/-- The tokens a cell list holds at one coordinate (concatenated in list
order). -/
def tokensAt (cells : List Cell) (xy : Int × Int) : List Int :=
  (cells.filter fun cl => cl.x == xy.1 && cl.y == xy.2).flatMap fun cl => cl.vals

/-- Total number of tokens of a cell list. -/
def totalTokens (cells : List Cell) : Nat :=
  (cells.map fun cell => cell.vals.length).sum

/-- Total number of tokens a position map holds on the grid. -/
def gridTotal (cfg : Config) (st : (Int × Int) → List Int) : Nat :=
  ((gridCoords cfg).map fun xy => (st xy).length).sum

/-- The capacity of a cell kind in the diffusion rules: Empty 2,
Interior 1, Center 0. -/
def capOf (circles : List Circle) (xy : Int × Int) : Nat :=
  if getCellType xy.1 xy.2 circles = 0 then 2
  else if getCellType xy.1 xy.2 circles = 1 then 1
  else 0

/-- The in-bounds invariant for one circle. -/
def inBoundsCircle (cfg : Config) (c : Circle) : Prop :=
  0 ≤ c.x - c.radius ∧ c.x + c.radius < cfg.width ∧
    0 ≤ c.y - c.radius ∧ c.y + c.radius < cfg.height

instance (cfg : Config) (c : Circle) : Decidable (inBoundsCircle cfg c) := by
  unfold inBoundsCircle; infer_instance

/-- Integer form of circle separation: the squared center distance is at
least the squared radius sum (trivially satisfied when the radius sum is
non-positive, where the source's float comparison never rejects). -/
def sepSq (a b : Circle) : Prop :=
  a.radius + b.radius ≤ 0 ∨
    (a.radius + b.radius) * (a.radius + b.radius) ≤
      (a.x - b.x) * (a.x - b.x) + (a.y - b.y) * (a.y - b.y)

/-- Real form of circle separation: Euclidean center distance at least the
radius sum. -/
def noOverlapReal (a b : Circle) : Prop :=
  ((a.radius + b.radius : Int) : ℝ) ≤
    Real.sqrt (((a.x - b.x : Int) : ℝ) ^ 2 + ((a.y - b.y : Int) : ℝ) ^ 2)

/-- The placement invariant: every circle in bounds, all pairs separated. -/
def GoodList (cfg : Config) (l : List Circle) : Prop :=
  (∀ c ∈ l, inBoundsCircle cfg c) ∧ List.Pairwise sepSq l

/-! ## Concrete instances used by witnesses and counterexamples -/

/-- The all-zeros oracle. -/
def oZero : Oracle := ⟨fun _ => 0, fun _ _ => 0, fun _ => (1, 0)⟩

/-- A 1×1 grid. -/
def cfgUnit : Config := ⟨1, 1, 0, 0, 0, 0, 0⟩

/-- A 2×2 grid. -/
def cfgTwo : Config := ⟨2, 2, 0, 0, 0, 0, 0⟩

/-- A 3×3 grid. -/
def cfgThree : Config := ⟨3, 3, 0, 0, 1, 1, 0⟩

/-- The 5×5/one-spawn scenario configuration of the spec. -/
def cfgFive : Config := ⟨5, 5, 1, 0, 1, 1, 3⟩

/-- The probability weight 1/100: positive, but `int(0.01 * 50) = 0`. -/
def qBucketSmall : ℚ := Rat.mk' 1 100

/-- The probability weight 1/200. -/
def qBucketSmaller : ℚ := Rat.mk' 1 200

/-- 70/99 ≈ 0.7071: a rational stand-in for `cos(π/4) = sin(π/4)` with
`(70/99)² + (70/99)² ≤ 1`. -/
def qDiag : ℚ := Rat.mk' 70 99

/-- A 101×5 grid: positive dimensions, non-negative counts, but wider than
100 cells. -/
def cfgBig : Config := ⟨101, 5, 0, 0, 1, 1, 0⟩

/-- A 10×10 grid with `maxGap = 0`. -/
def cfgTen : Config := ⟨10, 10, 0, 0, 1, 1, 0⟩

/-- An oracle whose every angle draw yields the diagonal direction
`(cos θ, sin θ) = (70/99, 70/99)` and whose every float draw yields 0. -/
def oDiag : Oracle := ⟨fun _ => 0, fun _ _ => 0, fun _ => (qDiag, qDiag)⟩

/-! ## Rational bridges -/

theorem rat_mul_den (a : ℚ) : a * (a.den : ℚ) = (a.num : ℚ) := by
  have hden : ((a.den : ℚ)) ≠ 0 := Nat.cast_ne_zero.mpr a.den_nz
  exact ((div_eq_iff hden).mp (Rat.num_div_den a)).symm

theorem rat_lt_cross (a b : ℚ) :
    a < b ↔ a.num * (b.den : Int) < b.num * (a.den : Int) := by
  have had : (0 : ℚ) < (a.den : ℚ) := by exact_mod_cast a.pos
  have hbd : (0 : ℚ) < (b.den : ℚ) := by exact_mod_cast b.pos
  constructor
  · intro h
    have h1 : (a.num : ℚ) / (a.den : ℚ) < (b.num : ℚ) / (b.den : ℚ) := by
      rw [Rat.num_div_den, Rat.num_div_den]; exact h
    have h2 := (div_lt_div_iff₀ had hbd).mp h1
    exact_mod_cast h2
  · intro h
    have h2 : (a.num : ℚ) * (b.den : ℚ) < (b.num : ℚ) * (a.den : ℚ) := by exact_mod_cast h
    have h1 := (div_lt_div_iff₀ had hbd).mpr h2
    rwa [Rat.num_div_den, Rat.num_div_den] at h1

theorem selCount_eq_floor (p : ℚ) : selCount p = (⌊p * 50⌋).toNat := by
  unfold selCount
  congr 1
  have h1 : p * 50 = ((p.num * 50 : Int) : ℚ) / ((p.den : Nat) : ℚ) := by
    have h2 : (p : ℚ) * (p.den : ℚ) = (p.num : ℚ) := rat_mul_den p
    have hden : ((p.den : ℚ)) ≠ 0 := Nat.cast_ne_zero.mpr p.den_nz
    field_simp
    linarith [mul_comm (p : ℚ) ((p.den : ℚ))]
  rw [h1, Rat.floor_intCast_div_natCast]
  have hb : (0 : Int) ≤ (p.den : Int) := by exact_mod_cast Nat.zero_le p.den
  exact Int.fdiv_eq_ediv _ hb

theorem moveGate_iff (q s : ℚ) : moveGate q s = true ↔ q * 100 < s := by
  unfold moveGate
  rw [decide_eq_true_iff]
  have hqd : (0 : ℚ) < (q.den : ℚ) := by exact_mod_cast q.pos
  have hsd : (0 : ℚ) < (s.den : ℚ) := by exact_mod_cast s.pos
  have h1 : q * 100 = ((q.num * 100 : Int) : ℚ) / ((q.den : Nat) : ℚ) := by
    have h2 : (q : ℚ) * (q.den : ℚ) = (q.num : ℚ) := rat_mul_den q
    have hden : ((q.den : ℚ)) ≠ 0 := Nat.cast_ne_zero.mpr q.den_nz
    field_simp
    linarith [mul_comm (q : ℚ) ((q.den : ℚ))]
  rw [h1]
  conv_rhs => rw [← Rat.num_div_den s]
  rw [div_lt_div_iff₀ hqd hsd]
  constructor
  · intro h; exact_mod_cast h
  · intro h; exact_mod_cast h

/-! ## Grid traversal facts -/

theorem mem_gridCoords (cfg : Config) (x y : Int) :
    (x, y) ∈ gridCoords cfg ↔
      0 ≤ x ∧ x < cfg.width ∧ 0 ≤ y ∧ y < cfg.height := by
  unfold gridCoords
  simp only [List.mem_flatMap, List.mem_map, List.mem_range, Prod.mk.injEq]
  constructor
  · rintro ⟨yn, hyn, xn, hxn, h1, h2⟩
    omega
  · rintro ⟨hx0, hxw, hy0, hyh⟩
    exact ⟨y.toNat, by omega, x.toNat, by omega, by omega, by omega⟩

theorem gridCoords_nodup (cfg : Config) : (gridCoords cfg).Nodup := by
  unfold gridCoords
  rw [List.nodup_flatMap]
  constructor
  · intro y _
    apply List.Nodup.map_on ?_ (List.nodup_range _)
    intro a _ b _ hab
    have h3 := congrArg Prod.fst hab
    simp only at h3
    exact_mod_cast h3
  · refine List.Pairwise.imp ?_ (List.nodup_range _)
    intro y1 y2 hne p hp1 hp2
    simp only [List.mem_map, List.mem_range] at hp1 hp2
    obtain ⟨x1, _, rfl⟩ := hp1
    obtain ⟨x2, _, heq⟩ := hp2
    apply hne
    have h2 := congrArg Prod.snd heq
    simp only at h2
    exact_mod_cast h2.symm

/-! ## C5: classifier exclusivity -/

theorem getCellType_mem_range (x y : Int) (circles : List Circle) :
    getCellType x y circles = 0 ∨ getCellType x y circles = 1 ∨
      getCellType x y circles = 2 := by
  induction circles with
  | nil => left; rfl
  | cons c rest ih =>
    by_cases h1 : x - c.x = 0 ∧ y - c.y = 0
    · right; right; simp [getCellType, h1]
    · by_cases h2 : (x - c.x) * (x - c.x) + (y - c.y) * (y - c.y) ≤ c.radius * c.radius
      · right; left; simp [getCellType, h1, h2]
      · simpa [getCellType, h1, h2] using ih

theorem getCellType_eq_center_iff (x y : Int) (circles : List Circle) :
    getCellType x y circles = 2 ↔
      ∃ l1 c l2, circles = l1 ++ c :: l2 ∧ c.x = x ∧ c.y = y ∧
        ∀ b ∈ l1, ¬ circleMatches x y b := by
  induction circles with
  | nil =>
    simp only [getCellType]
    constructor
    · intro h; exact absurd h (by decide)
    · rintro ⟨l1, c, l2, h, -⟩; exact absurd h (by simp)
  | cons c rest ih =>
    by_cases h1 : x - c.x = 0 ∧ y - c.y = 0
    · simp only [getCellType, h1, if_true]
      constructor
      · intro _
        exact ⟨[], c, rest, rfl, by omega, by omega, by simp⟩
      · intro _; rfl
    · by_cases h2 : (x - c.x) * (x - c.x) + (y - c.y) * (y - c.y) ≤ c.radius * c.radius
      · simp only [getCellType, h1, if_false, h2, if_true]
        constructor
        · intro h; exact absurd h (by decide)
        · rintro ⟨l1, d, l2, hsplit, hdx, hdy, hfirst⟩
          match l1, hsplit with
          | [], hsplit =>
            have : d = c := by injection hsplit with h1' _; exact h1'.symm
            subst this
            exact absurd ⟨by omega, by omega⟩ h1
          | b :: l1', hsplit =>
            have hb : b = c := by injection hsplit with h1' _; exact h1'.symm
            have hm : circleMatches x y b := by subst hb; exact Or.inr h2
            exact ((hfirst b (by simp)) hm).elim
      · simp only [getCellType, h1, if_false, h2, if_false]
        rw [ih]
        constructor
        · rintro ⟨l1, d, l2, hsplit, hdx, hdy, hfirst⟩
          refine ⟨c :: l1, d, l2, by simp [hsplit], hdx, hdy, ?_⟩
          intro b hb
          rcases List.mem_cons.mp hb with hb | hb
          · subst hb
            intro hm
            rcases hm with hm | hm
            · exact h1 hm
            · exact h2 hm
          · exact hfirst b hb
        · rintro ⟨l1, d, l2, hsplit, hdx, hdy, hfirst⟩
          match l1, hsplit with
          | [], hsplit =>
            have : d = c := by injection hsplit with h1' _; exact h1'.symm
            subst this
            exact absurd ⟨by omega, by omega⟩ h1
          | b :: l1', hsplit =>
            have hb : b = c := by injection hsplit with h1' _; exact h1'.symm
            have htl : rest = l1' ++ d :: l2 := by injection hsplit
            exact ⟨l1', d, l2, htl, hdx, hdy, fun b' hb' => hfirst b' (by simp [hb'])⟩

/-- **C5 (amended).** The classifier always yields one of the three kinds
`{Empty = 0, Interior = 1, Center = 2}`; it yields Center only when `(x,y)`
is the exact integer center of some listed circle; and it yields Center
exactly when the *first* circle in list order that matches `(x,y)` (by
center test or interior test) matches by its center.  The unamended claim's
converse — every point equal to some circle's center is classified Center —
fails when an earlier circle already covers the point
(`C5_classifier_counterexample`). -/
theorem C5_classifier_amended (x y : Int) (circles : List Circle) :
    (getCellType x y circles = 0 ∨ getCellType x y circles = 1 ∨
      getCellType x y circles = 2) ∧
    (getCellType x y circles = 2 → ∃ c ∈ circles, c.x = x ∧ c.y = y) ∧
    (getCellType x y circles = 2 ↔
      ∃ l1 c l2, circles = l1 ++ c :: l2 ∧ c.x = x ∧ c.y = y ∧
        ∀ b ∈ l1, ¬ circleMatches x y b) := by
  refine ⟨getCellType_mem_range x y circles, ?_, getCellType_eq_center_iff x y circles⟩
  intro h
  rcases (getCellType_eq_center_iff x y circles).mp h with ⟨l1, c, l2, hsplit, hdx, hdy, -⟩
  exact ⟨c, by simp [hsplit], hdx, hdy⟩

/-- **C5 (counterexample).** The point `(1,0)` is the exact center of the
second circle of the list, yet `getCellType` classifies it Interior (1),
because the first circle (radius 2 around the origin) already covers it:
the claimed "Center iff the point equals some circle's exact center" fails
in the right-to-left direction. -/
theorem C5_classifier_counterexample :
    (∃ c ∈ [Circle.mk 0 0 2 "", Circle.mk 1 0 1 ""], c.x = 1 ∧ c.y = 0) ∧
    getCellType 1 0 [Circle.mk 0 0 2 "", Circle.mk 1 0 1 ""] ≠ 2 := by
  decide

/-! ## C9: speed validation -/

theorem speedsRangeErr_eq_none (l : List ℚ) :
    speedsRangeErr l = none ↔ ∀ s ∈ l, 0 ≤ s ∧ s ≤ 100 := by
  induction l with
  | nil => simp [speedsRangeErr]
  | cons s rest ih =>
    simp only [speedsRangeErr, List.mem_cons]
    by_cases h : s < 0 ∨ 100 < s
    · rw [if_pos h]
      constructor
      · intro hc; exact (Option.some_ne_none _ hc).elim
      · intro hc
        have hs := hc s (Or.inl rfl)
        exfalso
        rcases h with h | h
        · exact absurd hs.1 (not_le.mpr h)
        · exact absurd hs.2 (not_le.mpr h)
    · rw [if_neg h, ih]
      push_neg at h
      constructor
      · rintro hc t (rfl | ht)
        · exact h
        · exact hc t ht
      · intro hc t ht
        exact hc t (Or.inr ht)

/-- **C9 (confirmed).** `validateSpeeds` succeeds (returns `nil`) iff the
speeds vector is non-empty and every entry lies in the closed interval
`[0, 100]`; an empty vector or an out-of-range entry is always rejected and
an all-in-range non-empty vector never is. -/
theorem C9_validateSpeeds_iff (speeds : List ℚ) :
    validateSpeeds speeds = none ↔ speeds ≠ [] ∧ ∀ s ∈ speeds, 0 ≤ s ∧ s ≤ 100 := by
  unfold validateSpeeds
  by_cases h : speeds.length = 0
  · have hnil : speeds = [] := List.length_eq_zero.mp h
    subst hnil
    simp
  · rw [if_neg h, speedsRangeErr_eq_none]
    have hne : speeds ≠ [] := fun hc => h (by simp [hc])
    constructor
    · intro hall; exact ⟨hne, hall⟩
    · intro hc; exact hc.2

/-! ## C10: the 100×100 size cap -/

/-- **C10 (confirmed).** For every configuration with positive dimensions
but width or height above 100, `validateConfig` returns an error, and the
map-creation pipeline (`createMapHandler`) returns that validation error
for every random oracle — in particular no placement is attempted and the
result does not depend on the placement engine's randomness. -/
theorem C10_config_size_limit (cfg : Config) (h1 : 0 < cfg.width) (h2 : 0 < cfg.height)
    (h3 : 100 < cfg.width ∨ 100 < cfg.height) :
    validateConfig cfg = some "map dimensions too large, max 100x100" ∧
    ∀ o : Oracle, createMap o cfg = Except.error "map dimensions too large, max 100x100" := by
  have hv : validateConfig cfg = some "map dimensions too large, max 100x100" := by
    unfold validateConfig
    rw [if_neg (by omega), if_pos h3]
  exact ⟨hv, fun o => by simp [createMap, hv]⟩

theorem C10_config_size_limit_witness :
    (0 < cfgBig.width ∧ 0 < cfgBig.height ∧
      (100 < cfgBig.width ∨ 100 < cfgBig.height)) ∧
    (validateConfig cfgBig = some "map dimensions too large, max 100x100" ∧
      ∀ o : Oracle,
        createMap o cfgBig = Except.error "map dimensions too large, max 100x100") :=
  ⟨by decide, C10_config_size_limit cfgBig (by decide) (by decide) (by decide)⟩

/-! ## C4/C6: distribution engine -/

theorem mem_buildSelector {v : Nat} :
    ∀ (i : Nat) (ps : List ℚ), v ∈ buildSelector i ps → i ≤ v ∧ v < i + ps.length := by
  intro i ps
  induction ps generalizing i with
  | nil => intro h; exact absurd h (List.not_mem_nil v)
  | cons p rest ih =>
    intro h
    simp only [buildSelector, List.mem_append, List.mem_replicate] at h
    rcases h with ⟨-, rfl⟩ | h
    · simp only [List.length_cons]; omega
    · have := ih (i + 1) h
      simp only [List.length_cons]
      omega

theorem selector_mem_lt {v : Nat} (ps : List ℚ)
    (h : v ∈ createProbabilitySelector ps) : v < ps.length := by
  have := mem_buildSelector 0 ps h
  omega

theorem pickTok_mem (o : Oracle) (selector : List Nat) (c : Nat) (hne : selector ≠ []) :
    (pickTok o selector c).1 ∈ selector := by
  unfold pickTok randIntn
  simp only
  have hlen : 0 < selector.length := List.length_pos.mpr hne
  have hi : o.intn c selector.length % selector.length < selector.length :=
    Nat.mod_lt _ hlen
  rw [List.getD_eq_getElem?_getD, List.getElem?_eq_getElem hi]
  simp

theorem drawToks_length (o : Oracle) (selector : List Nat) :
    ∀ (k c : Nat), (drawToks o selector k c).1.length = k := by
  intro k
  induction k with
  | zero => intro c; rfl
  | succ k ih => intro c; simp [drawToks, ih]

theorem drawToks_mem (o : Oracle) (selector : List Nat) (hne : selector ≠ []) :
    ∀ (k c : Nat), ∀ v ∈ (drawToks o selector k c).1, ∃ w ∈ selector, v = (w : Int) := by
  intro k
  induction k with
  | zero => intro c v hv; exact absurd hv (List.not_mem_nil v)
  | succ k ih =>
    intro c v hv
    simp only [drawToks, List.mem_cons] at hv
    rcases hv with rfl | hv
    · exact ⟨(pickTok o selector c).1, pickTok_mem o selector c hne, rfl⟩
    · exact ih _ v hv

theorem distCells_sound (o : Oracle) (circles : List Circle) (selector : List Nat)
    (hne : selector ≠ []) :
    ∀ (coords : List (Int × Int)) (c : Nat), ∀ cell ∈ distCells o circles selector coords c,
      (cell.x, cell.y) ∈ coords ∧
      getCellType cell.x cell.y circles ≠ 2 ∧
      (getCellType cell.x cell.y circles = 1 → cell.vals.length = 1) ∧
      (getCellType cell.x cell.y circles = 0 →
        cell.vals.length = 1 ∨ cell.vals.length = 2) ∧
      (∀ v ∈ cell.vals, ∃ w ∈ selector, v = (w : Int)) := by
  intro coords
  induction coords with
  | nil => intro c cell h; exact absurd h (List.not_mem_nil cell)
  | cons xy rest ih =>
    intro c cell h
    simp only [distCells] at h
    by_cases ht2 : getCellType xy.1 xy.2 circles = 2
    · rw [if_pos ht2] at h
      obtain ⟨h1, h2, h3, h4, h5⟩ := ih c cell h
      exact ⟨List.mem_cons_of_mem xy h1, h2, h3, h4, h5⟩
    · rw [if_neg ht2] at h
      by_cases ht1 : getCellType xy.1 xy.2 circles = 1
      · rw [if_pos ht1] at h
        rcases List.mem_cons.mp h with rfl | h
        · refine ⟨by simp, by simpa using ht2, fun _ => rfl, fun h0 => ?_, ?_⟩
          · exact absurd (ht1.symm.trans h0) (by decide)
          · intro v hv
            rcases List.mem_singleton.mp hv with rfl
            exact ⟨(pickTok o selector c).1, pickTok_mem o selector c hne, rfl⟩
        · obtain ⟨h1, h2, h3, h4, h5⟩ := ih _ cell h
          exact ⟨List.mem_cons_of_mem xy h1, h2, h3, h4, h5⟩
      · rw [if_neg ht1] at h
        rcases List.mem_cons.mp h with rfl | h
        · have ht0 : getCellType xy.1 xy.2 circles = 0 := by
            rcases getCellType_mem_range xy.1 xy.2 circles with h0 | h0 | h0
            · exact h0
            · exact absurd h0 ht1
            · exact absurd h0 ht2
          have hr : (randIntn o c 2).1 < 2 := Nat.mod_lt _ (by omega)
          refine ⟨by simp, by simpa using ht2, fun h1 => absurd h1 (by simpa using ht1), ?_, ?_⟩
          · intro _
            have hl := drawToks_length o selector (1 + (randIntn o c 2).1) (randIntn o c 2).2
            simp only
            omega
          · intro v hv
            exact drawToks_mem o selector hne _ _ v hv
        · obtain ⟨h1, h2, h3, h4, h5⟩ := ih _ cell h
          exact ⟨List.mem_cons_of_mem xy h1, h2, h3, h4, h5⟩

theorem distCells_filter_unique (o : Oracle) (circles : List Circle) (selector : List Nat)
    (hne : selector ≠ []) :
    ∀ (coords : List (Int × Int)), coords.Nodup → ∀ (c : Nat) (x y : Int),
      (x, y) ∈ coords → getCellType x y circles ≠ 2 →
      ∃ vals, ((distCells o circles selector coords c).filter
          fun cl => cl.x == x && cl.y == y) = [⟨x, y, vals⟩] := by
  intro coords
  induction coords with
  | nil => intro _ c x y hmem; exact absurd hmem (List.not_mem_nil _)
  | cons xy rest ih =>
    intro hnd c x y hmem hnc
    have hnd1 : xy ∉ rest := (List.nodup_cons.mp hnd).1
    have hnd2 : rest.Nodup := (List.nodup_cons.mp hnd).2
    have htail : ∀ (c' : Nat),
        ((distCells o circles selector rest c').filter
          fun cl => cl.x == x && cl.y == y) = [] → True := fun _ _ => trivial
    rcases List.mem_cons.mp hmem with heq | hmem'
    · -- the head coordinate is the one we are looking at
      subst heq
      have hfilter_tail : ∀ (c' : Nat),
          ((distCells o circles selector rest c').filter
            fun cl => cl.x == x && cl.y == y) = [] := by
        intro c'
        rw [List.filter_eq_nil_iff]
        intro cl hcl hpred
        obtain ⟨hmemr, -, -, -, -⟩ := distCells_sound o circles selector hne rest c' cl hcl
        simp only [Bool.and_eq_true, beq_iff_eq] at hpred
        apply hnd1
        have : (cl.x, cl.y) = (x, y) := by rw [hpred.1, hpred.2]
        rwa [this] at hmemr
      simp only [distCells]
      rw [if_neg hnc]
      by_cases ht1 : getCellType x y circles = 1
      · rw [if_pos ht1]
        refine ⟨[((pickTok o selector c).1 : Int)], ?_⟩
        rw [List.filter_cons_of_pos (by simp), hfilter_tail]
      · rw [if_neg ht1]
        refine ⟨(drawToks o selector (1 + (randIntn o c 2).1) (randIntn o c 2).2).1, ?_⟩
        rw [List.filter_cons_of_pos (by simp), hfilter_tail]
    · -- the coordinate is in the tail; the head coordinate is different
      have hxy_ne : xy ≠ (x, y) := fun hc => hnd1 (hc ▸ hmem')
      simp only [distCells]
      by_cases ht2 : getCellType xy.1 xy.2 circles = 2
      · rw [if_pos ht2]
        exact ih hnd2 c x y hmem' hnc
      · rw [if_neg ht2]
        have hhead_pred :
            ((⟨xy.1, xy.2, ([] : List Int)⟩ : Cell).x == x &&
              (⟨xy.1, xy.2, ([] : List Int)⟩ : Cell).y == y) = false := by
          simp only [Bool.and_eq_false_iff, beq_eq_false_iff_ne]
          by_contra hc
          push_neg at hc
          exact hxy_ne (by
            have h1 : xy.1 = x := by
              rcases hc with ⟨h1, -⟩
              simpa using h1
            have h2 : xy.2 = y := by
              rcases hc with ⟨-, h2⟩
              simpa using h2
            exact Prod.ext h1 h2)
        by_cases ht1 : getCellType xy.1 xy.2 circles = 1
        · rw [if_pos ht1]
          rw [List.filter_cons_of_neg (by
            simp only [Bool.and_eq_true, beq_iff_eq]
            rintro ⟨h1, h2⟩
            exact hxy_ne (Prod.ext h1 h2))]
          exact ih hnd2 _ x y hmem' hnc
        · rw [if_neg ht1]
          rw [List.filter_cons_of_neg (by
            simp only [Bool.and_eq_true, beq_iff_eq]
            rintro ⟨h1, h2⟩
            exact hxy_ne (Prod.ext h1 h2))]
          exact ih hnd2 _ x y hmem' hnc

theorem generateDistribution_eq (o : Oracle) (cfg : Config) (circles : List Circle)
    (probabilities : List ℚ) (hsel : createProbabilitySelector probabilities ≠ []) :
    generateDistribution o cfg circles probabilities =
      distCells o circles (createProbabilitySelector probabilities) (gridCoords cfg) 0 := by
  simp [generateDistribution, hsel]

/-- **C4 (amended).**  When the weighted selector is non-empty (some weight
`p` has `int(p*50) ≥ 1` — "at least one positive weight" is not enough, see
`C4_distribution_counterexample`), the distribution step emits, for every
non-Center grid coordinate, exactly one cell: Interior cells get exactly 1
token, Empty cells get 1 or 2 tokens, Center cells get none, and every
token value is a valid index into the probability vector. -/
theorem C4_distribution_amended (o : Oracle) (cfg : Config) (circles : List Circle)
    (probabilities : List ℚ)
    (hsel : createProbabilitySelector probabilities ≠ []) :
    (∀ cell ∈ generateDistribution o cfg circles probabilities,
      (0 ≤ cell.x ∧ cell.x < cfg.width ∧ 0 ≤ cell.y ∧ cell.y < cfg.height) ∧
      getCellType cell.x cell.y circles ≠ 2 ∧
      (getCellType cell.x cell.y circles = 1 → cell.vals.length = 1) ∧
      (getCellType cell.x cell.y circles = 0 →
        cell.vals.length = 1 ∨ cell.vals.length = 2) ∧
      (∀ v ∈ cell.vals, 0 ≤ v ∧ v < (probabilities.length : Int))) ∧
    (∀ x y : Int, 0 ≤ x → x < cfg.width → 0 ≤ y → y < cfg.height →
      getCellType x y circles ≠ 2 →
      ∃ vals, ((generateDistribution o cfg circles probabilities).filter
          fun cl => cl.x == x && cl.y == y) = [⟨x, y, vals⟩]) := by
  rw [generateDistribution_eq o cfg circles probabilities hsel]
  constructor
  · intro cell hcell
    obtain ⟨h1, h2, h3, h4, h5⟩ :=
      distCells_sound o circles _ hsel (gridCoords cfg) 0 cell hcell
    refine ⟨(mem_gridCoords cfg cell.x cell.y).mp h1, h2, h3, h4, ?_⟩
    intro v hv
    obtain ⟨w, hw, rfl⟩ := h5 v hv
    have := selector_mem_lt probabilities hw
    constructor
    · exact_mod_cast Nat.zero_le w
    · exact_mod_cast this
  · intro x y hx0 hxw hy0 hyh hnc
    exact distCells_filter_unique o circles _ hsel (gridCoords cfg)
      (gridCoords_nodup cfg) 0 x y ((mem_gridCoords cfg x y).mpr ⟨hx0, hxw, hy0, hyh⟩) hnc

theorem C4_distribution_witness :
    (createProbabilitySelector [(2 : ℚ)] ≠ []) ∧
    ((∀ cell ∈ generateDistribution oZero cfgUnit [] [(2 : ℚ)],
      (0 ≤ cell.x ∧ cell.x < cfgUnit.width ∧ 0 ≤ cell.y ∧ cell.y < cfgUnit.height) ∧
      getCellType cell.x cell.y [] ≠ 2 ∧
      (getCellType cell.x cell.y [] = 1 → cell.vals.length = 1) ∧
      (getCellType cell.x cell.y [] = 0 →
        cell.vals.length = 1 ∨ cell.vals.length = 2) ∧
      (∀ v ∈ cell.vals, 0 ≤ v ∧ v < (([(2 : ℚ)]).length : Int))) ∧
    (∀ x y : Int, 0 ≤ x → x < cfgUnit.width → 0 ≤ y → y < cfgUnit.height →
      getCellType x y [] ≠ 2 →
      ∃ vals, ((generateDistribution oZero cfgUnit [] [(2 : ℚ)]).filter
          fun cl => cl.x == x && cl.y == y) = [⟨x, y, vals⟩])) :=
  ⟨by decide, C4_distribution_amended oZero cfgUnit [] [(2 : ℚ)] (by decide)⟩

/-- **C4 (counterexample).** The weight `1/100` is positive, yet
`int(0.01 * 50) = 0`, so the selector is empty and `generateDistribution`
returns no cells at all: the Empty in-grid cell `(0,0)` of the 1×1 grid
receives 0 tokens instead of the claimed 1 or 2. -/
theorem C4_distribution_counterexample :
    (0 < qBucketSmall) ∧
    getCellType 0 0 ([] : List Circle) = 0 ∧
    (0 ≤ (0 : Int) ∧ (0 : Int) < cfgUnit.width ∧
      0 ≤ (0 : Int) ∧ (0 : Int) < cfgUnit.height) ∧
    generateDistribution oZero cfgUnit [] [qBucketSmall] = [] := by
  decide

/-- **C6 (amended).** When every weight rounds to zero
(`int(p*50) = 0` for all entries) the selector is empty, and
`generateDistribution` returns the empty cell map — it does *not*
degenerate to an implicit single bucket 0 that still assigns tokens; no
tokens are assigned at all (`C6_selector_degenerate_counterexample`). -/
theorem C6_selector_degenerate_amended (probabilities : List ℚ)
    (h : ∀ p ∈ probabilities, selCount p = 0) :
    createProbabilitySelector probabilities = [] ∧
    ∀ (o : Oracle) (cfg : Config) (circles : List Circle),
      generateDistribution o cfg circles probabilities = [] := by
  have hsel : ∀ (i : Nat) (ps : List ℚ), (∀ p ∈ ps, selCount p = 0) →
      buildSelector i ps = [] := by
    intro i ps
    induction ps generalizing i with
    | nil => intro _; rfl
    | cons p rest ih =>
      intro hall
      simp [buildSelector, hall p (by simp), ih (i + 1) (fun p hp => hall p (by simp [hp]))]
  have h1 : createProbabilitySelector probabilities = [] := hsel 0 probabilities h
  refine ⟨h1, fun o cfg circles => ?_⟩
  simp [generateDistribution, h1]

theorem C6_selector_degenerate_witness :
    (∀ p ∈ [qBucketSmall], selCount p = 0) ∧
    (createProbabilitySelector [qBucketSmall] = [] ∧
      ∀ (o : Oracle) (cfg : Config) (circles : List Circle),
        generateDistribution o cfg circles [qBucketSmall] = []) :=
  ⟨by decide, C6_selector_degenerate_amended [qBucketSmall] (by decide)⟩

/-- **C6 (counterexample).** A vector of two positive weights that all
round to zero: the claim says distribution still assigns tokens (all from
bucket 0), but the code returns an empty cell map on the 2×2 grid whose
`(0,0)` is an in-grid Empty cell. -/
theorem C6_selector_degenerate_counterexample :
    (∀ p ∈ [qBucketSmaller, qBucketSmaller], 0 < p ∧ selCount p = 0) ∧
    getCellType 0 0 ([] : List Circle) = 0 ∧
    (0 ≤ (0 : Int) ∧ (0 : Int) < cfgTwo.width ∧
      0 ≤ (0 : Int) ∧ (0 : Int) < cfgTwo.height) ∧
    generateDistribution oZero cfgTwo [] [qBucketSmaller, qBucketSmaller] = [] := by
  decide

/-! ## C7: nearby-position sampling -/

/-- **C7 (amended).** The *real-valued* radial distance sampled by
`generateNearbyPosition` lies in `[baseRadius + r, baseRadius + r + maxGap]`
whenever the unit draw is in `[0, 1)` and `maxGap ≥ 0`.  The claim as
stated — that the *integer candidate's* center distance to the base lies in
that interval — is false: truncating `base + d·(cos θ, sin θ)` to integer
coordinates can bring the candidate strictly closer than
`baseRadius + r` (`C7_nearby_position_counterexample`). -/
theorem C7_sampled_distance_amended (baseR r maxGap : Int) (q : ℚ)
    (h0 : 0 ≤ q) (h1 : q < 1) (hg : 0 ≤ maxGap) :
    ((baseR + r : Int) : ℚ) ≤ sampledDistance baseR r maxGap q ∧
    sampledDistance baseR r maxGap q ≤ ((baseR + r : Int) : ℚ) + ((maxGap : Int) : ℚ) := by
  unfold sampledDistance
  have hgq : (0 : ℚ) ≤ ((maxGap : Int) : ℚ) := by exact_mod_cast hg
  constructor
  · nlinarith
  · nlinarith

theorem C7_sampled_distance_witness :
    ((0 : ℚ) ≤ 0 ∧ (0 : ℚ) < 1 ∧ (0 : Int) ≤ 0) ∧
    (((1 + 1 : Int) : ℚ) ≤ sampledDistance 1 1 0 0 ∧
      sampledDistance 1 1 0 0 ≤ ((1 + 1 : Int) : ℚ) + ((0 : Int) : ℚ)) :=
  ⟨by decide, C7_sampled_distance_amended 1 1 0 0 (by decide) (by decide) (by decide)⟩

/-- **C7 (counterexample).** With base circle `(2,2)` of radius 1, new
radius 1 and `maxGap = 0`, the admissible draws `q = 0` (so the sampled
real distance is exactly `baseRadius + r = 2`) and direction
`(70/99, 70/99)` (inside the unit circle, the rational analogue of the
diagonal `cos(π/4) = sin(π/4) ≈ 0.7071`) produce the integer candidate
`(3,3)` — and `generateNearbyPosition` returns it, since it passes the
inset bounds check on the 10×10 grid — whose center distance to the base,
`√2`, is strictly below the claimed lower bound `2`. -/
theorem C7_nearby_position_counterexample :
    ((0 : ℚ) ≤ 0 ∧ (0 : ℚ) < 1 ∧ (70 : Int) * 70 + 70 * 70 ≤ 99 * 99) ∧
    nearPosCandidate 2 2 1 1 0 0 qDiag qDiag = (3, 3) ∧
    (nearPos oDiag cfgTen (Circle.mk 2 2 1 "") 1 30 0).1 = (3, 3) ∧
    Real.sqrt (((3 : ℝ) - 2) ^ 2 + ((3 : ℝ) - 2) ^ 2) < ((1 : ℝ) + 1) := by
  refine ⟨by decide, by decide, by decide, ?_⟩
  have h2 : Real.sqrt (((3 : ℝ) - 2) ^ 2 + ((3 : ℝ) - 2) ^ 2) = Real.sqrt 2 := by
    norm_num
  rw [h2, show ((1 : ℝ) + 1) = 2 by norm_num]
  nlinarith [Real.sq_sqrt (by norm_num : (0 : ℝ) ≤ 2), Real.sqrt_nonneg 2]

/-! ## C3: placement invariants -/

theorem canPlaceCircle_spec (cfg : Config) (l : List Circle) (c : Circle)
    (h : canPlaceCircle cfg l c = true) :
    inBoundsCircle cfg c ∧ ∀ ex ∈ l, sepSq c ex := by
  unfold canPlaceCircle at h
  by_cases hb : c.x - c.radius < 0 ∨ cfg.width ≤ c.x + c.radius ∨
      c.y - c.radius < 0 ∨ cfg.height ≤ c.y + c.radius
  · rw [if_pos hb] at h; exact absurd h (by simp)
  · rw [if_neg hb] at h
    push_neg at hb
    refine ⟨⟨by omega, by omega, by omega, by omega⟩, ?_⟩
    intro ex hex
    have hall := (List.all_eq_true.mp h) ex hex
    simp only [Bool.not_eq_true'] at hall
    unfold overlapsLt at hall
    simp only [decide_eq_false_iff_not] at hall
    push_neg at hall
    unfold sepSq
    by_cases hs : c.radius + ex.radius ≤ 0
    · exact Or.inl hs
    · exact Or.inr (hall (not_le.mp hs))

theorem sepSq_symm {a b : Circle} (h : sepSq a b) : sepSq b a := by
  unfold sepSq at h ⊢
  rcases h with h | h
  · exact Or.inl (by omega)
  · right
    have e1 : (b.x - a.x) * (b.x - a.x) = (a.x - b.x) * (a.x - b.x) := by ring
    have e2 : (b.y - a.y) * (b.y - a.y) = (a.y - b.y) * (a.y - b.y) := by ring
    have e3 : (b.radius + a.radius) * (b.radius + a.radius) =
        (a.radius + b.radius) * (a.radius + b.radius) := by ring
    rw [e1, e2, e3]
    exact h

theorem goodList_snoc (cfg : Config) (l : List Circle) (c : Circle) (t : String)
    (hg : GoodList cfg l) (hc : canPlaceCircle cfg l c = true) :
    GoodList cfg (l ++ [{ c with ctype := t }]) := by
  obtain ⟨hin, hsep⟩ := hg
  obtain ⟨hcin, hcsep⟩ := canPlaceCircle_spec cfg l c hc
  constructor
  · intro d hd
    rcases List.mem_append.mp hd with hd | hd
    · exact hin d hd
    · rcases List.mem_singleton.mp hd with rfl
      exact hcin
  · rw [List.pairwise_append]
    refine ⟨hsep, List.pairwise_singleton _ _, ?_⟩
    intro a ha b hb
    rcases List.mem_singleton.mp hb with rfl
    exact sepSq_symm (hcsep a ha)

theorem getAll_spawn_snoc (spawns : List Circle) (c : Circle) :
    getAll (spawns ++ [c]) [] = getAll spawns [] ++ [{ c with ctype := "spawn" }] := by
  simp [getAll]

theorem getAll_bedroom_snoc (spawns bedrooms : List Circle) (c : Circle) :
    getAll spawns (bedrooms ++ [c]) =
      getAll spawns bedrooms ++ [{ c with ctype := "bedroom" }] := by
  simp [getAll]

theorem tryPlace_spec (o : Oracle) (cfg : Config) (radius : Int)
    (spawns bedrooms : List Circle) :
    ∀ (fuel c : Nat) (pr : Circle × Nat),
      tryPlace o cfg radius spawns bedrooms fuel c = some pr →
      canPlaceCircle cfg (getAll spawns bedrooms) pr.1 = true := by
  intro fuel
  induction fuel with
  | zero => intro c pr h; exact absurd h (by simp [tryPlace])
  | succ fuel ih =>
    intro c pr h
    simp only [tryPlace] at h
    split at h
    · rcases Option.some.inj h with rfl
      assumption
    · exact ih _ pr h

theorem placeSpawns_good (o : Oracle) (cfg : Config) :
    ∀ (k : Nat) (spawns : List Circle) (c : Nat) (res : List Circle × Nat),
      GoodList cfg (getAll spawns []) →
      placeSpawns o cfg k spawns c = .ok res →
      GoodList cfg (getAll res.1 []) := by
  intro k
  induction k with
  | zero =>
    intro spawns c res hg h
    cases h
    exact hg
  | succ k ih =>
    intro spawns c res hg h
    simp only [placeSpawns] at h
    cases htry : tryPlace o cfg cfg.spawnR spawns [] 3000 c with
    | none => rw [htry] at h; exact absurd h (by simp)
    | some pr =>
      rw [htry] at h
      refine ih _ _ res ?_ h
      rw [getAll_spawn_snoc]
      exact goodList_snoc cfg _ _ "spawn" hg
        (tryPlace_spec o cfg cfg.spawnR spawns [] 3000 c pr htry)

theorem placeBedrooms_good (o : Oracle) (cfg : Config) (spawns : List Circle) :
    ∀ (k : Nat) (bedrooms : List Circle) (c : Nat) (res : List Circle × Nat),
      GoodList cfg (getAll spawns bedrooms) →
      placeBedrooms o cfg spawns k bedrooms c = .ok res →
      GoodList cfg (getAll spawns res.1) := by
  intro k
  induction k with
  | zero =>
    intro bedrooms c res hg h
    cases h
    exact hg
  | succ k ih =>
    intro bedrooms c res hg h
    simp only [placeBedrooms] at h
    cases htry : tryPlace o cfg cfg.bedroomR spawns bedrooms 3000 c with
    | none => rw [htry] at h; exact absurd h (by simp)
    | some pr =>
      rw [htry] at h
      refine ih _ _ res ?_ h
      rw [getAll_bedroom_snoc]
      exact goodList_snoc cfg _ _ "bedroom" hg
        (tryPlace_spec o cfg cfg.bedroomR spawns bedrooms 3000 c pr htry)

theorem initialSpawns_good (cfg : Config) : GoodList cfg (getAll (initialSpawns cfg) []) := by
  unfold initialSpawns
  by_cases h1 : 0 < cfg.spawns
  · rw [if_pos h1]
    by_cases h2 : canPlaceCircle cfg (getAll [] [])
      ⟨Int.tdiv cfg.width 2, Int.tdiv cfg.height 2, cfg.spawnR, ""⟩ = true
    · rw [if_pos h2]
      obtain ⟨hin, -⟩ := canPlaceCircle_spec cfg _ _ h2
      exact ⟨by simp [getAll]; exact hin, by simp [getAll]⟩
    · rw [if_neg h2]
      exact ⟨by simp [getAll], by simp [getAll]⟩
  · rw [if_neg h1]
    exact ⟨by simp [getAll], by simp [getAll]⟩

theorem sepSq_to_real {a b : Circle} (h : sepSq a b) : noOverlapReal a b := by
  unfold noOverlapReal
  by_cases hs : a.radius + b.radius ≤ 0
  · have h0 : ((a.radius + b.radius : Int) : ℝ) ≤ 0 := by exact_mod_cast hs
    exact h0.trans (Real.sqrt_nonneg _)
  · push_neg at hs
    have hd2 : (a.radius + b.radius) * (a.radius + b.radius) ≤
        (a.x - b.x) * (a.x - b.x) + (a.y - b.y) * (a.y - b.y) := by
      rcases h with h | h
      · omega
      · exact h
    have hd2R : ((a.radius + b.radius : Int) : ℝ) * ((a.radius + b.radius : Int) : ℝ) ≤
        ((a.x - b.x : Int) : ℝ) * ((a.x - b.x : Int) : ℝ) +
          ((a.y - b.y : Int) : ℝ) * ((a.y - b.y : Int) : ℝ) := by
      exact_mod_cast hd2
    have hsR : (0 : ℝ) ≤ ((a.radius + b.radius : Int) : ℝ) := by exact_mod_cast hs.le
    have hcast : (((a.radius + b.radius : Int) : ℝ)) ^ 2 ≤
        ((a.x - b.x : Int) : ℝ) ^ 2 + ((a.y - b.y : Int) : ℝ) ^ 2 := by
      nlinarith [hd2R]
    calc ((a.radius + b.radius : Int) : ℝ)
        = Real.sqrt ((((a.radius + b.radius : Int) : ℝ)) ^ 2) := (Real.sqrt_sq hsR).symm
      _ ≤ Real.sqrt (((a.x - b.x : Int) : ℝ) ^ 2 + ((a.y - b.y : Int) : ℝ) ^ 2) :=
          Real.sqrt_le_sqrt hcast

/-- **C3 (confirmed).** Whenever the placement engine succeeds, every
returned circle lies fully inside the grid, and every pair of distinct
returned circles has Euclidean center distance at least the sum of their
radii (touching allowed, overlap forbidden). -/
theorem C3_generate_invariants (o : Oracle) (cfg : Config) (circles : List Circle)
    (h : Generate o cfg = .ok circles) :
    (∀ c ∈ circles, inBoundsCircle cfg c) ∧ List.Pairwise noOverlapReal circles := by
  have hg : GoodList cfg circles := by
    unfold Generate at h
    cases hsp : placeSpawns o cfg (cfg.spawns.toNat - (initialSpawns cfg).length)
        (initialSpawns cfg) 0 with
    | error e => rw [hsp] at h; exact absurd h (by simp [Bind.bind, Except.bind])
    | ok sp =>
      rw [hsp] at h
      simp only [Bind.bind, Except.bind] at h
      cases hbd : placeBedrooms o cfg sp.1 cfg.bedrooms.toNat [] sp.2 with
      | error e => rw [hbd] at h; exact absurd h (by simp)
      | ok bd =>
        rw [hbd] at h
        simp only [pure, Except.pure, Except.ok.injEq] at h
        subst h
        exact placeBedrooms_good o cfg sp.1 cfg.bedrooms.toNat [] sp.2 bd
          (by simpa [getAll] using
            placeSpawns_good o cfg _ (initialSpawns cfg) 0 sp (initialSpawns_good cfg) hsp)
          hbd
  exact ⟨hg.1, hg.2.imp fun hab => sepSq_to_real hab⟩

theorem C3_generate_invariants_witness :
    (Generate oZero cfgFive = .ok [Circle.mk 2 2 1 "spawn"]) ∧
    ((∀ c ∈ [Circle.mk 2 2 1 "spawn"], inBoundsCircle cfgFive c) ∧
      List.Pairwise noOverlapReal [Circle.mk 2 2 1 "spawn"]) :=
  ⟨rfl, C3_generate_invariants oZero cfgFive _ rfl⟩

/-! ## C1/C2/C8: diffusion machinery -/

theorem commit_apply_self (st : (Int × Int) → List Int) (p : Int × Int) (val : Int) :
    commit st p val p = st p ++ [val] := by
  unfold commit
  rw [if_pos rfl]

theorem commit_apply_ne (st : (Int × Int) → List Int) (p : Int × Int) (val : Int)
    (k : Int × Int) (h : k ≠ p) : commit st p val k = st k := by
  unfold commit
  rw [if_neg h]

theorem findDest_spec (circles : List Circle) (st : (Int × Int) → List Int) :
    ∀ (l : List (Int × Int)) (p : Int × Int), findDest circles st l = some p →
      p ∈ l ∧ canMoveTo circles st p = true := by
  intro l
  induction l with
  | nil => intro p h; exact absurd h (by simp [findDest])
  | cons a rest ih =>
    intro p h
    simp only [findDest] at h
    by_cases hc : canMoveTo circles st a = true
    · rw [if_pos hc] at h
      rcases Option.some.inj h with rfl
      exact ⟨List.mem_cons_self a rest, hc⟩
    · rw [if_neg hc] at h
      obtain ⟨h1, h2⟩ := ih p h
      exact ⟨List.mem_cons_of_mem a h1, h2⟩

theorem listSwap_mem (l : List (Int × Int)) (i j : Nat) :
    ∀ x ∈ listSwap l i j, x ∈ l := by
  intro x hx
  unfold listSwap at hx
  cases hi : l[i]? with
  | none => rw [hi] at hx; exact hx
  | some a =>
    cases hj : l[j]? with
    | none => rw [hi, hj] at hx; exact hx
    | some b =>
      rw [hi, hj] at hx
      rcases List.mem_or_eq_of_mem_set hx with hx' | rfl
      · rcases List.mem_or_eq_of_mem_set hx' with hx'' | rfl
        · exact hx''
        · exact List.getElem?_mem hj
      · exact List.getElem?_mem hi

theorem fyShuffle_mem (o : Oracle) :
    ∀ (i : Nat) (l : List (Int × Int)) (c : Nat),
      ∀ x ∈ (fyShuffle o i l c).1, x ∈ l := by
  intro i
  induction i with
  | zero => intro l c x hx; exact hx
  | succ i ih =>
    intro l c x hx
    simp only [fyShuffle] at hx
    exact listSwap_mem l _ _ x (ih _ _ x hx)

theorem getNeighbors_mem_grid (x y : Int) (cfg : Config) :
    ∀ p ∈ getNeighbors x y cfg, p ∈ gridCoords cfg := by
  intro p hp
  unfold getNeighbors at hp
  rcases List.mem_filterMap.mp hp with ⟨d, -, hd⟩
  by_cases hc : 0 ≤ x + d.1 ∧ x + d.1 < cfg.width ∧ 0 ≤ y + d.2 ∧ y + d.2 < cfg.height
  · rw [if_pos hc] at hd
    rcases Option.some.inj hd with rfl
    exact (mem_gridCoords cfg _ _).mpr hc
  · rw [if_neg hc] at hd
    exact absurd hd (by simp)

/-- Each processed token is appended at exactly one position: its own cell
(when it does not move or finds no legal neighbour) or an in-bounds
neighbour that passed the capacity check against the state built so far. -/
theorem processToken_spec (o : Oracle) (cfg : Config) (circles : List Circle)
    (speeds : List ℚ) (pos : Int × Int) (acc : ((Int × Int) → List Int) × Nat) (val : Int) :
    ∃ p, (processToken o cfg circles speeds pos acc val).1 = commit acc.1 p val ∧
      (p = pos ∨ (p ∈ getNeighbors pos.1 pos.2 cfg ∧ canMoveTo circles acc.1 p = true)) := by
  unfold processToken
  by_cases hg : moveGate ((randFloat o acc.2).1) (speedOf speeds val) = true
  · rw [if_pos hg]
    cases hfd : findDest circles acc.1
        (fyShuffle o ((getNeighbors pos.1 pos.2 cfg).length - 1)
          (getNeighbors pos.1 pos.2 cfg) (randFloat o acc.2).2).1 with
    | none => exact ⟨pos, by dsimp only; rw [hfd], Or.inl rfl⟩
    | some dest =>
      obtain ⟨hmem, hcan⟩ := findDest_spec circles acc.1 _ dest hfd
      exact ⟨dest, by dsimp only; rw [hfd], Or.inr ⟨fyShuffle_mem o _ _ _ dest hmem, hcan⟩⟩
  · rw [if_neg hg]
    exact ⟨pos, rfl, Or.inl rfl⟩

theorem commit_sum_mem (p : Int × Int) (v : Int) :
    ∀ (l : List (Int × Int)), l.Nodup → p ∈ l → ∀ st,
      ((l.map fun xy => ((commit st p v) xy).length).sum) =
        ((l.map fun xy => (st xy).length).sum) + 1 := by
  intro l
  induction l with
  | nil => intro _ h; exact absurd h (List.not_mem_nil p)
  | cons a rest ih =>
    intro hnd hmem st
    have hnd1 : a ∉ rest := (List.nodup_cons.mp hnd).1
    have hnd2 : rest.Nodup := (List.nodup_cons.mp hnd).2
    simp only [List.map_cons, List.sum_cons]
    rcases List.mem_cons.mp hmem with rfl | hmem'
    · rw [commit_apply_self]
      have hrest : (rest.map fun xy => (commit st p v xy).length) =
          rest.map fun xy => (st xy).length := by
        apply List.map_congr_left
        intro xy hxy
        rw [commit_apply_ne st p v xy (fun hc => hnd1 (hc ▸ hxy))]
      rw [hrest, List.length_append]
      simp
      omega
    · rw [commit_apply_ne st p v a (fun hc => hnd1 (hc ▸ hmem'))]
      rw [ih hnd2 hmem' st]
      omega

/-- The cell/value double fold of `moveNumbers` equals a single fold over
the flattened token list. -/
theorem fold_tokens_eq (o : Oracle) (cfg : Config) (circles : List Circle) (speeds : List ℚ) :
    ∀ (cells : List Cell) (acc : ((Int × Int) → List Int) × Nat),
      cells.foldl (fun acc cell =>
          cell.vals.foldl (processToken o cfg circles speeds (cell.x, cell.y)) acc) acc =
        (tokensOf cells).foldl
          (fun acc t => processToken o cfg circles speeds t.1 acc t.2) acc := by
  intro cells
  induction cells with
  | nil => intro acc; rfl
  | cons cell rest ih =>
    intro acc
    rw [List.foldl_cons]
    rw [show tokensOf (cell :: rest) =
      (cell.vals.map fun v => ((cell.x, cell.y), v)) ++ tokensOf rest from rfl]
    rw [List.foldl_append, ih]
    congr 1
    rw [List.foldl_map]

theorem tokenFold_sum (o : Oracle) (cfg : Config) (circles : List Circle) (speeds : List ℚ) :
    ∀ (tokens : List ((Int × Int) × Int)) (acc : ((Int × Int) → List Int) × Nat),
      (∀ t ∈ tokens, t.1 ∈ gridCoords cfg) →
      (((gridCoords cfg).map fun xy =>
          ((tokens.foldl (fun acc t =>
            processToken o cfg circles speeds t.1 acc t.2) acc).1 xy).length).sum) =
        (((gridCoords cfg).map fun xy => (acc.1 xy).length).sum) + tokens.length := by
  intro tokens
  induction tokens with
  | nil => intro acc _; simp
  | cons t rest ih =>
    intro acc hmem
    rw [List.foldl_cons]
    rw [ih _ (fun t' ht' => hmem t' (List.mem_cons_of_mem t ht'))]
    obtain ⟨p, hp, hcase⟩ := processToken_spec o cfg circles speeds t.1 acc t.2
    rw [hp]
    have hpgrid : p ∈ gridCoords cfg := by
      rcases hcase with rfl | ⟨hmem', -⟩
      · exact hmem t (List.mem_cons_self t rest)
      · exact getNeighbors_mem_grid t.1.1 t.1.2 cfg p hmem'
    rw [commit_sum_mem p t.2 (gridCoords cfg) (gridCoords_nodup cfg) hpgrid acc.1]
    simp only [List.length_cons]
    omega

theorem tokensOf_length (cells : List Cell) : (tokensOf cells).length = totalTokens cells := by
  unfold tokensOf totalTokens
  induction cells with
  | nil => rfl
  | cons cell rest ih => simp only [List.flatMap_cons, List.length_append, List.map_cons,
      List.sum_cons, List.length_map, ih]

theorem filterMap_total (final : (Int × Int) → List Int) :
    ∀ (l : List (Int × Int)),
      ((l.filterMap fun xy =>
        if (final xy).isEmpty then none else some (Cell.mk xy.1 xy.2 (final xy))).map
          fun cell => cell.vals.length).sum =
      (l.map fun xy => (final xy).length).sum := by
  intro l
  induction l with
  | nil => rfl
  | cons xy rest ih =>
    rw [List.filterMap_cons]
    by_cases h : (final xy).isEmpty = true
    · rw [if_pos h]
      have h0 : (final xy).length = 0 := by
        rwa [List.isEmpty_iff_length_eq_zero] at h
      simp only [List.map_cons, List.sum_cons, ih, h0]
      omega
    · rw [if_neg h]
      simp only [List.map_cons, List.sum_cons, ih]

theorem extractCells_total (cfg : Config) (final : (Int × Int) → List Int) :
    totalTokens (extractCells cfg final) =
      ((gridCoords cfg).map fun xy => (final xy).length).sum := by
  unfold extractCells totalTokens
  exact filterMap_total final (gridCoords cfg)

theorem tokensOf_pos_mem (cfg : Config) (cells : List Cell)
    (hin : ∀ cell ∈ cells,
      0 ≤ cell.x ∧ cell.x < cfg.width ∧ 0 ≤ cell.y ∧ cell.y < cfg.height) :
    ∀ t ∈ tokensOf cells, t.1 ∈ gridCoords cfg := by
  intro t ht
  unfold tokensOf at ht
  rcases List.mem_flatMap.mp ht with ⟨cell, hcell, hmem⟩
  rcases List.mem_map.mp hmem with ⟨v, -, rfl⟩
  exact (mem_gridCoords cfg _ _).mpr (hin cell hcell)

/-- **C1 (amended).** Conservation of tokens holds for every cell map whose
cells lie inside the grid (and whose token values are non-negative, the
range on which Go's `speeds[speedIdx]` lookup is defined): the diffusion
step neither creates nor destroys tokens, for any speeds vector and any
random outcome.  The unamended "for every current cell map" fails because
tokens of cells outside the grid are silently dropped by the final
row-major extraction loop (`C1_conservation_counterexample`). -/
theorem C1_conservation_amended (o : Oracle) (cfg : Config) (circles : List Circle)
    (cells : List Cell) (speeds : List ℚ)
    (hin : ∀ cell ∈ cells,
      0 ≤ cell.x ∧ cell.x < cfg.width ∧ 0 ≤ cell.y ∧ cell.y < cfg.height)
    (_hvals : ∀ cell ∈ cells, ∀ v ∈ cell.vals, 0 ≤ v) :
    totalTokens (moveNumbers o cfg circles cells speeds) = totalTokens cells := by
  unfold moveNumbers
  by_cases hsp : speeds.length = 0
  · rw [if_pos hsp]
  · rw [if_neg hsp]
    rw [fold_tokens_eq, extractCells_total]
    rw [tokenFold_sum o cfg circles speeds (tokensOf cells) _
      (tokensOf_pos_mem cfg cells hin)]
    rw [tokensOf_length]
    simp

/-- **C1 (counterexample).** A single token at cell `(5,5)` of a 1×1 grid
with non-empty speeds `[0]`: the token cannot move, yet the output holds no
tokens at all — the extraction loop only walks the grid, so the total drops
from 1 to 0. -/
theorem C1_conservation_counterexample :
    totalTokens [Cell.mk 5 5 [0]] = 1 ∧
    moveNumbers oZero cfgUnit [] [Cell.mk 5 5 [0]] [(0 : ℚ)] = [] ∧
    totalTokens (moveNumbers oZero cfgUnit [] [Cell.mk 5 5 [0]] [(0 : ℚ)]) = 0 := by
  refine ⟨rfl, ?_, ?_⟩ <;> decide

theorem C1_conservation_witness :
    ((∀ cell ∈ [Cell.mk 0 0 [0]],
        0 ≤ cell.x ∧ cell.x < cfgUnit.width ∧ 0 ≤ cell.y ∧ cell.y < cfgUnit.height) ∧
      (∀ cell ∈ [Cell.mk 0 0 [0]], ∀ v ∈ cell.vals, 0 ≤ v)) ∧
    totalTokens (moveNumbers oZero cfgUnit [] [Cell.mk 0 0 [0]] [(0 : ℚ)]) =
      totalTokens [Cell.mk 0 0 [0]] :=
  ⟨⟨by decide, by decide⟩,
    C1_conservation_amended oZero cfgUnit [] [Cell.mk 0 0 [0]] [(0 : ℚ)]
      (by decide) (by decide)⟩

theorem filter_length_cons {α : Type} (p : α → Bool) (a : α) (l : List α) :
    (List.filter p (a :: l)).length =
      (if p a = true then 1 else 0) + (List.filter p l).length := by
  rw [List.filter_cons]
  by_cases h : p a = true
  · rw [if_pos h, if_pos h, List.length_cons]; omega
  · rw [if_neg h, if_neg h]; omega

theorem canMoveTo_lt_cap (circles : List Circle) (st : (Int × Int) → List Int)
    (p : Int × Int) (h : canMoveTo circles st p = true) :
    (st p).length < capOf circles p := by
  unfold canMoveTo at h
  unfold capOf
  by_cases h0 : getCellType p.1 p.2 circles = 0
  · rw [if_pos h0] at h ⊢; exact of_decide_eq_true h
  · rw [if_neg h0] at h ⊢
    by_cases h1 : getCellType p.1 p.2 circles = 1
    · rw [if_pos h1] at h ⊢; exact of_decide_eq_true h
    · rw [if_neg h1] at h; exact absurd h (by simp)

theorem canMoveTo_center (circles : List Circle) (st : (Int × Int) → List Int)
    (p : Int × Int) (h2 : getCellType p.1 p.2 circles = 2) :
    canMoveTo circles st p = false := by
  unfold canMoveTo
  rw [if_neg (by rw [h2]; decide), if_neg (by rw [h2]; decide)]

/-- Capacity bound through the token fold: each position's committed count
never exceeds the larger of its starting count and its capacity, plus the
number of processed tokens whose source is that position (tokens only move
into a position while its committed count is below capacity; stationary
tokens are committed unconditionally). -/
theorem tokenFold_cap (o : Oracle) (cfg : Config) (circles : List Circle) (speeds : List ℚ) :
    ∀ (tokens : List ((Int × Int) × Int)) (acc : ((Int × Int) → List Int) × Nat)
      (xy : Int × Int),
      (((tokens.foldl (fun acc t =>
          processToken o cfg circles speeds t.1 acc t.2) acc).1 xy).length) ≤
        max ((acc.1 xy).length) (capOf circles xy) +
          (tokens.filter fun t => decide (t.1 = xy)).length := by
  intro tokens
  induction tokens with
  | nil =>
    intro acc xy
    simp only [List.foldl_nil, List.filter_nil, List.length_nil, Nat.add_zero]
    exact le_max_left _ _
  | cons t rest ih =>
    intro acc xy
    rw [List.foldl_cons]
    refine le_trans (ih _ xy) ?_
    rw [filter_length_cons]
    obtain ⟨p, hp, hcase⟩ := processToken_spec o cfg circles speeds t.1 acc t.2
    rw [hp]
    by_cases hxy : xy = p
    · subst hxy
      rw [commit_apply_self, List.length_append]
      rcases hcase with hpos | ⟨-, hcan⟩
      · have hpred : decide (t.1 = xy) = true := by simp [hpos]
        rw [if_pos hpred]
        simp only [List.length_singleton]
        omega
      · have hlt := canMoveTo_lt_cap circles acc.1 xy hcan
        have hif : (0 : Nat) ≤ if decide (t.1 = xy) = true then 1 else 0 := Nat.zero_le _
        simp only [List.length_singleton]
        omega
    · rw [commit_apply_ne _ _ _ _ hxy]
      have hif : (0 : Nat) ≤ if decide (t.1 = xy) = true then 1 else 0 := Nat.zero_le _
      omega

/-- Center cells only accumulate tokens whose source is that very cell:
movement into a Center cell is never legal. -/
theorem tokenFold_center (o : Oracle) (cfg : Config) (circles : List Circle) (speeds : List ℚ)
    (xy : Int × Int) (hc2 : getCellType xy.1 xy.2 circles = 2) (v : Int) :
    ∀ (tokens : List ((Int × Int) × Int)) (acc : ((Int × Int) → List Int) × Nat),
      ((((tokens.foldl (fun acc t =>
          processToken o cfg circles speeds t.1 acc t.2) acc).1 xy).filter
            fun u => decide (u = v)).length) ≤
        (((acc.1 xy).filter fun u => decide (u = v)).length) +
          (tokens.filter fun t => decide (t.1 = xy ∧ t.2 = v)).length := by
  intro tokens
  induction tokens with
  | nil => intro acc; simp
  | cons t rest ih =>
    intro acc
    rw [List.foldl_cons]
    refine le_trans (ih _) ?_
    rw [filter_length_cons]
    obtain ⟨p, hp, hcase⟩ := processToken_spec o cfg circles speeds t.1 acc t.2
    rw [hp]
    by_cases hxy : xy = p
    · subst hxy
      have hstay : xy = t.1 := by
        rcases hcase with h | ⟨-, hcan⟩
        · exact h
        · exact absurd hcan (by rw [canMoveTo_center circles acc.1 xy hc2]; simp)
      rw [commit_apply_self, List.filter_append, List.length_append]
      by_cases hv : t.2 = v
      · have hpred : decide (t.1 = xy ∧ t.2 = v) = true := by
          simp [← hstay, hv]
        rw [if_pos hpred]
        have hone : (List.filter (fun u => decide (u = v)) [t.2]).length = 1 := by
          simp [List.filter_cons, hv]
        omega
      · have hzero : (List.filter (fun u => decide (u = v)) [t.2]).length = 0 := by
          simp [List.filter_cons, hv]
        have hif : (0 : Nat) ≤ if decide (t.1 = xy ∧ t.2 = v) = true then 1 else 0 :=
          Nat.zero_le _
        omega
    · rw [commit_apply_ne _ _ _ _ hxy]
      have hif : (0 : Nat) ≤ if decide (t.1 = xy ∧ t.2 = v) = true then 1 else 0 :=
        Nat.zero_le _
      omega

theorem tokensOf_at (cells : List Cell) (xy : Int × Int) :
    ((tokensOf cells).filter fun t => decide (t.1 = xy)).map (fun t => t.2) =
      tokensAt cells xy := by
  induction cells with
  | nil => rfl
  | cons cell rest ih =>
    rw [show tokensOf (cell :: rest) =
      (cell.vals.map fun v => ((cell.x, cell.y), v)) ++ tokensOf rest from rfl]
    rw [List.filter_append, List.map_append, ih]
    unfold tokensAt
    by_cases hc : (cell.x, cell.y) = xy
    · have h1 : cell.x = xy.1 := by rw [← hc]
      have h2 : cell.y = xy.2 := by rw [← hc]
      rw [List.filter_cons_of_pos (by simp [h1, h2])]
      rw [List.flatMap_cons]
      congr 1
      rw [List.filter_eq_self.mpr ?_]
      · rw [List.map_map]
        have : ((fun t : (Int × Int) × Int => t.2) ∘ fun v => ((cell.x, cell.y), v)) =
            id := by funext v; rfl
        rw [this, List.map_id]
      · intro a ha
        rcases List.mem_map.mp ha with ⟨v, -, rfl⟩
        simp [hc]
    · rw [List.filter_cons_of_neg (by
        simp only [Bool.and_eq_true, beq_iff_eq]
        rintro ⟨h1, h2⟩
        exact hc (Prod.ext h1 h2))]
      rw [List.filter_eq_nil_iff.mpr ?_]
      · rfl
      · intro a ha
        rcases List.mem_map.mp ha with ⟨v, -, rfl⟩
        simp [hc]

theorem tokensOf_at_len (cells : List Cell) (xy : Int × Int) :
    ((tokensOf cells).filter fun t => decide (t.1 = xy)).length =
      (tokensAt cells xy).length := by
  rw [← tokensOf_at cells xy, List.length_map]

theorem tokensOf_at_val (cells : List Cell) (xy : Int × Int) (v : Int) :
    ((tokensOf cells).filter fun t => decide (t.1 = xy ∧ t.2 = v)).length =
      ((tokensAt cells xy).filter fun u => decide (u = v)).length := by
  rw [← tokensOf_at cells xy]
  rw [List.filter_map]
  rw [List.length_map]
  congr 1
  rw [List.filter_filter]
  apply List.filter_congr
  intro t _
  simp only [Function.comp]
  by_cases h1 : t.1 = xy <;> by_cases h2 : t.2 = v <;> simp [h1, h2]

theorem extractCells_mem (cfg : Config) (final : (Int × Int) → List Int) :
    ∀ cell ∈ extractCells cfg final,
      (cell.x, cell.y) ∈ gridCoords cfg ∧ cell.vals = final (cell.x, cell.y) := by
  intro cell hcell
  unfold extractCells at hcell
  rcases List.mem_filterMap.mp hcell with ⟨xy, hxy, hok⟩
  by_cases h : (final xy).isEmpty = true
  · rw [if_pos h] at hok; exact absurd hok (by simp)
  · rw [if_neg h] at hok
    rcases Option.some.inj hok with rfl
    constructor
    · simpa using hxy
    · rfl

theorem moveNumbers_mem (o : Oracle) (cfg : Config) (circles : List Circle)
    (cells : List Cell) (speeds : List ℚ) (hsp : speeds.length ≠ 0) :
    ∀ cell ∈ moveNumbers o cfg circles cells speeds,
      (cell.x, cell.y) ∈ gridCoords cfg ∧
      cell.vals = ((tokensOf cells).foldl
        (fun acc t => processToken o cfg circles speeds t.1 acc t.2)
        ((fun _ => []), 0)).1 (cell.x, cell.y) := by
  intro cell hcell
  unfold moveNumbers at hcell
  rw [if_neg hsp, fold_tokens_eq] at hcell
  exact extractCells_mem cfg _ cell hcell

theorem tokensAt_superset (cells : List Cell) (cell : Cell) (p : Int → Bool) :
    cell ∈ cells →
    (cell.vals.filter p).length ≤
      ((tokensAt cells (cell.x, cell.y)).filter p).length := by
  induction cells with
  | nil => intro h; exact absurd h (List.not_mem_nil cell)
  | cons a rest ih =>
    intro hmem
    unfold tokensAt
    dsimp only
    rcases List.mem_cons.mp hmem with rfl | hmem'
    · rw [List.filter_cons_of_pos (by simp)]
      rw [List.flatMap_cons, List.filter_append, List.length_append]
      omega
    · by_cases ha : (a.x == cell.x && a.y == cell.y) = true
      · rw [List.filter_cons, if_pos ha, List.flatMap_cons, List.filter_append,
          List.length_append]
        have := ih hmem'
        unfold tokensAt at this
        dsimp only at this
        omega
      · rw [List.filter_cons, if_neg ha]
        exact ih hmem'

/-- **C2 (amended).** After the diffusion step, a Center cell holds no
token it did not already hold in the input (counted with multiplicity),
and every cell's token count is bounded by its capacity (2 for Empty, 1
for Interior, 0 for Center) *plus* the number of tokens it held in the
input.  The unamended per-kind bounds fail even on capacity-respecting
inputs, because tokens that stay in place are committed without a
capacity check (`C2_capacity_counterexample`). -/
theorem C2_capacity_amended (o : Oracle) (cfg : Config) (circles : List Circle)
    (cells : List Cell) (speeds : List ℚ)
    (_hvals : ∀ cell ∈ cells, ∀ v ∈ cell.vals, 0 ≤ v) :
    ∀ cell ∈ moveNumbers o cfg circles cells speeds,
      cell.vals.length ≤
        capOf circles (cell.x, cell.y) + (tokensAt cells (cell.x, cell.y)).length ∧
      (getCellType cell.x cell.y circles = 2 → ∀ v : Int,
        (cell.vals.filter fun u => decide (u = v)).length ≤
          ((tokensAt cells (cell.x, cell.y)).filter fun u => decide (u = v)).length) := by
  intro cell hcell
  by_cases hsp : speeds.length = 0
  · unfold moveNumbers at hcell
    rw [if_pos hsp] at hcell
    constructor
    · have h1 := tokensAt_superset cells cell (fun _ => true) hcell
      simp only [List.filter_true] at h1
      omega
    · intro _ v
      exact tokensAt_superset cells cell (fun u => decide (u = v)) hcell
  · obtain ⟨hgrid, hvals_eq⟩ := moveNumbers_mem o cfg circles cells speeds hsp cell hcell
    constructor
    · rw [hvals_eq]
      refine le_trans
        (tokenFold_cap o cfg circles speeds (tokensOf cells) _ (cell.x, cell.y)) ?_
      rw [tokensOf_at_len]
      simp
    · intro h2 v
      rw [hvals_eq]
      refine le_trans
        (tokenFold_center o cfg circles speeds (cell.x, cell.y) h2 v (tokensOf cells) _) ?_
      rw [tokensOf_at_val]
      simp

/-- **C2 (counterexample).** An Interior cell of the input already holding
two tokens, with speeds `[0]`: both tokens stay, so the output Interior
cell `(1,0)` holds 2 > 1 tokens — the claimed per-kind output bound fails
for an arbitrary input cell map. -/
theorem C2_capacity_counterexample :
    getCellType 1 0 [Circle.mk 1 1 1 ""] = 1 ∧
    moveNumbers oZero cfgThree [Circle.mk 1 1 1 ""] [Cell.mk 1 0 [0, 0]] [(0 : ℚ)] =
      [Cell.mk 1 0 [0, 0]] ∧
    (Cell.mk 1 0 [0, 0]).vals.length = 2 := by
  refine ⟨by decide, by decide, rfl⟩

theorem C2_capacity_witness :
    (∀ cell ∈ [Cell.mk 0 0 [0]], ∀ v ∈ cell.vals, 0 ≤ v) ∧
    (∀ cell ∈ moveNumbers oZero cfgUnit [] [Cell.mk 0 0 [0]] [(0 : ℚ)],
      cell.vals.length ≤
        capOf [] (cell.x, cell.y) + (tokensAt [Cell.mk 0 0 [0]] (cell.x, cell.y)).length ∧
      (getCellType cell.x cell.y [] = 2 → ∀ v : Int,
        (cell.vals.filter fun u => decide (u = v)).length ≤
          ((tokensAt [Cell.mk 0 0 [0]] (cell.x, cell.y)).filter
            fun u => decide (u = v)).length)) :=
  ⟨by decide, C2_capacity_amended oZero cfgUnit [] [Cell.mk 0 0 [0]] [(0 : ℚ)] (by decide)⟩

theorem speedOf_zeros (val : Int) : speedOf [0, 0] val = 0 := by
  unfold speedOf
  dsimp only
  match (if ((List.length [(0 : ℚ), 0] : Int) ≤ val) then (0 : Int) else val).toNat with
  | 0 => rfl
  | 1 => rfl
  | n + 2 => rfl

theorem moveGate_zero (q : ℚ) (hq : 0 ≤ q) : moveGate q 0 = false := by
  unfold moveGate
  simp only [decide_eq_false_iff_not, not_lt]
  have h1 : 0 ≤ q.num := Rat.num_nonneg.mpr hq
  rw [show ((0 : ℚ).num) = 0 from rfl, show ((0 : ℚ).den) = 1 from rfl]
  have h2 : (0 : Int) * (q.den : Int) = 0 := by ring
  rw [h2]
  positivity

/-- With the all-zero speeds vector `[0,0]` and in-range float draws, every
token is committed to its own cell, in processing order. -/
theorem tokenFold_stay (o : Oracle) (cfg : Config) (circles : List Circle)
    (hq : ∀ n, 0 ≤ o.flt n) :
    ∀ (tokens : List ((Int × Int) × Int)) (acc : ((Int × Int) → List Int) × Nat)
      (xy : Int × Int),
      ((tokens.foldl (fun acc t =>
          processToken o cfg circles [0, 0] t.1 acc t.2) acc).1 xy) =
        acc.1 xy ++ ((tokens.filter fun t => decide (t.1 = xy)).map fun t => t.2) := by
  intro tokens
  induction tokens with
  | nil => intro acc xy; simp
  | cons t rest ih =>
    intro acc xy
    rw [List.foldl_cons]
    have hstep : processToken o cfg circles [0, 0] t.1 acc t.2 =
        (commit acc.1 t.1 t.2, acc.2 + 1) := by
      unfold processToken
      rw [if_neg (by
        rw [speedOf_zeros, moveGate_zero ((randFloat o acc.2).1) (hq acc.2)]
        simp)]
      rfl
    rw [hstep, ih]
    dsimp only
    by_cases hxy : xy = t.1
    · rw [List.filter_cons, if_pos (by simp [hxy]), List.map_cons]
      rw [hxy, commit_apply_self, List.append_assoc]
      rfl
    · rw [List.filter_cons, if_neg (by
        simp only [decide_eq_true_iff]
        exact fun hc => hxy hc.symm)]
      rw [commit_apply_ne _ _ _ _ hxy]

/-- What the extraction loop leaves at one coordinate: the built list for
in-grid coordinates, nothing elsewhere. -/
theorem tokensAt_filterMap (final : (Int × Int) → List Int) (xy : Int × Int) :
    ∀ (l : List (Int × Int)), l.Nodup →
      tokensAt (l.filterMap fun p =>
        if (final p).isEmpty then none else some (Cell.mk p.1 p.2 (final p))) xy =
      if xy ∈ l then final xy else [] := by
  intro l
  induction l with
  | nil => intro _; simp [tokensAt]
  | cons a rest ih =>
    intro hnd
    have hnd1 : a ∉ rest := (List.nodup_cons.mp hnd).1
    have hnd2 : rest.Nodup := (List.nodup_cons.mp hnd).2
    rw [List.filterMap_cons]
    by_cases hemp : (final a).isEmpty = true
    · rw [if_pos hemp, ih hnd2]
      by_cases hmem : xy ∈ a :: rest
      · rw [if_pos hmem]
        rcases List.mem_cons.mp hmem with rfl | hmem'
        · rw [if_neg hnd1]
          exact (List.isEmpty_iff.mp hemp).symm
        · rw [if_pos hmem']
      · rw [if_neg hmem, if_neg (fun hc => hmem (List.mem_cons_of_mem a hc))]
    · rw [if_neg hemp]
      unfold tokensAt
      by_cases hax : a = xy
      · have h1 : a.1 = xy.1 := by rw [hax]
        have h2 : a.2 = xy.2 := by rw [hax]
        rw [List.filter_cons, if_pos (by simp [h1, h2]), List.flatMap_cons]
        have htail : tokensAt (rest.filterMap fun p =>
            if (final p).isEmpty then none
            else some (Cell.mk p.1 p.2 (final p))) xy = [] := by
          rw [ih hnd2, if_neg (fun hc => hnd1 (hax ▸ hc))]
        unfold tokensAt at htail
        rw [htail, List.append_nil, if_pos (by simp [hax])]
        rw [hax]
      · rw [List.filter_cons, if_neg (by
          simp only [Bool.and_eq_true, beq_iff_eq, not_and]
          intro hc1 hc2
          exact hax (Prod.ext hc1 hc2))]
        have := ih hnd2
        unfold tokensAt at this
        rw [this]
        by_cases hmem : xy ∈ rest
        · rw [if_pos hmem, if_pos (List.mem_cons_of_mem a hmem)]
        · rw [if_neg hmem, if_neg (by
            intro hc
            rcases List.mem_cons.mp hc with rfl | hc'
            · exact hax rfl
            · exact hmem hc')]

/-- Cell maps confined to the grid hold no tokens at out-of-grid
coordinates. -/
theorem tokensAt_out_of_grid (cfg : Config) (cells : List Cell)
    (hin : ∀ cell ∈ cells,
      0 ≤ cell.x ∧ cell.x < cfg.width ∧ 0 ≤ cell.y ∧ cell.y < cfg.height)
    (xy : Int × Int) (hxy : xy ∉ gridCoords cfg) : tokensAt cells xy = [] := by
  unfold tokensAt
  rw [List.filter_eq_nil_iff.mpr ?_]
  · rfl
  · intro cl hcl hpred
    simp only [Bool.and_eq_true, beq_iff_eq] at hpred
    apply hxy
    have hc := hin cl hcl
    rw [show xy = (cl.x, cl.y) from (Prod.ext hpred.1 hpred.2).symm]
    exact (mem_gridCoords cfg cl.x cl.y).mpr hc

/-- **C8 (amended).** With an empty speeds vector the diffusion step is the
identity on the cell list; with the all-zero speeds vector `[0,0]` every
token stays in its cell, so for cell maps confined to the grid (with
non-negative token values and in-range float draws) the output holds
exactly the input's tokens at the input's coordinates.  The unamended "for
every input cell map" fails for the `[0,0]` half because tokens of cells
outside the grid are dropped by the extraction loop
(`C8_zero_speeds_counterexample`). -/
theorem C8_zero_speeds_amended (o : Oracle) (cfg : Config) (circles : List Circle)
    (cells : List Cell)
    (hin : ∀ cell ∈ cells,
      0 ≤ cell.x ∧ cell.x < cfg.width ∧ 0 ≤ cell.y ∧ cell.y < cfg.height)
    (_hvals : ∀ cell ∈ cells, ∀ v ∈ cell.vals, 0 ≤ v)
    (hq : ∀ n, 0 ≤ o.flt n) :
    moveNumbers o cfg circles cells [] = cells ∧
    ∀ xy : Int × Int,
      tokensAt (moveNumbers o cfg circles cells [0, 0]) xy = tokensAt cells xy := by
  constructor
  · rfl
  · intro xy
    unfold moveNumbers
    rw [if_neg (by decide), fold_tokens_eq]
    unfold extractCells
    rw [tokensAt_filterMap _ xy (gridCoords cfg) (gridCoords_nodup cfg)]
    by_cases hmem : xy ∈ gridCoords cfg
    · rw [if_pos hmem]
      rw [tokenFold_stay o cfg circles hq (tokensOf cells) _ xy]
      rw [tokensOf_at]
      rfl
    · rw [if_neg hmem, tokensAt_out_of_grid cfg cells hin xy hmem]

/-- **C8 (counterexample).** `speeds = [0,0]` on a 1×1 grid with a single
token at the out-of-grid cell `(5,5)`: the token "stays", but the returned
cell map is empty, so it does not hold the input's token at the input's
coordinate. -/
theorem C8_zero_speeds_counterexample :
    moveNumbers oZero cfgUnit [] [Cell.mk 5 5 [0]] [0, 0] = [] ∧
    tokensAt [Cell.mk 5 5 [0]] (5, 5) = [0] ∧
    tokensAt (moveNumbers oZero cfgUnit [] [Cell.mk 5 5 [0]] [0, 0]) (5, 5) = [] := by
  refine ⟨by decide, by decide, by decide⟩

theorem C8_zero_speeds_witness :
    ((∀ cell ∈ [Cell.mk 0 0 [0]],
        0 ≤ cell.x ∧ cell.x < cfgUnit.width ∧ 0 ≤ cell.y ∧ cell.y < cfgUnit.height) ∧
      (∀ cell ∈ [Cell.mk 0 0 [0]], ∀ v ∈ cell.vals, 0 ≤ v) ∧
      (∀ n, 0 ≤ oZero.flt n)) ∧
    (moveNumbers oZero cfgUnit [] [Cell.mk 0 0 [0]] [] = [Cell.mk 0 0 [0]] ∧
      ∀ xy : Int × Int,
        tokensAt (moveNumbers oZero cfgUnit [] [Cell.mk 0 0 [0]] [0, 0]) xy =
          tokensAt [Cell.mk 0 0 [0]] xy) :=
  ⟨⟨by decide, by decide, fun _ => le_refl 0⟩,
    C8_zero_speeds_amended oZero cfgUnit [] [Cell.mk 0 0 [0]]
      (by decide) (by decide) (fun _ => le_refl 0)⟩

end CircleDiagram
